import Mathlib

/-! ssosync: `internal/config/secrets.go`

A shallow embedding of the secret accessor (`Secrets`, its six getters and the
shared `getSecret` routine) together with the part of Go's `encoding/base64`
that `getSecret` calls (`StdEncoding.DecodedLen` and `StdEncoding.Decode`).

Conventions of the embedding

* a Go `byte` is a natural number (`< 256` for a real byte); conversions
  `byte(x)` are written `x % 256`;
* a Go `[]byte` and the contents of a Go `string` value are `List Nat`;
  secret identifiers and version stages, which are only passed along, are
  Lean strings;
* a Go computation that may stop with a run-time panic is a value of
  `Go α = Except Abort α`; loops whose recursion is not structural carry a
  fuel argument and stop with `Abort.outOfFuel` when it is used up;
* a Go `error` is `Option (GoError ε)`, `none` being `nil`.
-/

namespace SSOSync

/-! ## Go run-time model -/

/-- Abnormal ends of a modelled Go computation. -/
inductive Abort where
  | panic
  | outOfFuel
  deriving DecidableEq, Repr

/-- A Go computation that either returns or stops abnormally. -/
abbrev Go (α : Type) := Except Abort α

/-- Go `s[i]` on a slice: panics when the index is out of range. -/
def index (s : List Nat) (i : Nat) : Go Nat :=
  match s[i]? with
  | some b => pure b
  | none => throw Abort.panic

/-- Go `s[i] = v` on a slice: panics when the index is out of range. -/
def assign (s : List Nat) (i : Nat) (v : Nat) : Go (List Nat) :=
  if i < s.length then pure (s.set i v) else throw Abort.panic

/-- Go `s[lo:hi]` on a slice whose capacity equals its length. -/
def slice (s : List Nat) (lo hi : Nat) : Go (List Nat) :=
  if lo ≤ hi ∧ hi ≤ s.length then pure ((s.take hi).drop lo) else throw Abort.panic

/-- Go `make([]byte, n)`: a zeroed slice of length `n`. -/
def make (n : Nat) : List Nat := List.replicate n 0

/-! ## `encoding/base64` -/

namespace base64

/-- Go `Encoding`: the alphabet, the reverse table, the padding rune and the
strict flag. -/
structure Encoding where
  encode : List Nat
  decodeMap : Nat → Nat
  padChar : Int
  strict : Bool

/-- Go `StdPadding`, the rune `=`. -/
def StdPadding : Int := 61

/-- Go `NoPadding`. -/
def NoPadding : Int := -1

/-- Go `encodeStd`, the standard alphabet as bytes. -/
def encodeStd : List Nat :=
  "ABCDEFGHIJKLMNOPQRSTUVWXYZabcdefghijklmnopqrstuvwxyz0123456789+/".toList.map Char.toNat

/-- The table `NewEncoding` builds: every entry `0xff`, then `decodeMap[encoder[i]] = i`
for `i` going up. -/
def buildDecodeMap : List Nat → Nat → (Nat → Nat) → (Nat → Nat)
  | [], _, m => m
  | c :: cs, i, m => buildDecodeMap cs (i + 1) (fun x => if x = c then i % 256 else m x)

/-- Go `NewEncoding`: padded, not strict. -/
def NewEncoding (encoder : List Nat) : Encoding :=
  { encode := encoder
    decodeMap := buildDecodeMap encoder 0 (fun _ => 0xff)
    padChar := StdPadding
    strict := false }

/-- Go `StdEncoding = NewEncoding(encodeStd)`. -/
def StdEncoding : Encoding := NewEncoding encodeStd

/-- Go `(*Encoding).DecodedLen`. -/
def DecodedLen (enc : Encoding) (n : Nat) : Nat :=
  if enc.padChar = NoPadding then n * 6 / 8 else n / 4 * 3

/-- Go `CorruptInputError`, an `int64` offset into the input. -/
abbrev CorruptInputError := Int

/-- How the scanning loop of `decodeQuantum` ends: by a `return` of the
function, or by leaving the loop with the digits read so far. -/
inductive Scan where
  | ret (nsi : Nat) (n : Nat) (err : Option CorruptInputError)
  | brk (si : Nat) (dbuf : List Nat) (dlen : Nat) (err : Option CorruptInputError)
  deriving DecidableEq, Repr

/-- The loop `for si < len(src) && (src[si] == '\n' || src[si] == '\r') { si++ }`. -/
def skipNewlines (src : List Nat) : Nat → Nat → Go Nat
  | 0, _ => throw Abort.outOfFuel
  | fuel + 1, si =>
    if si < src.length then do
      let c ← index src si
      if c = 10 ∨ c = 13 then skipNewlines src fuel (si + 1) else pure si
    else pure si

/-- The loop `for j := 0; j < len(dbuf); j++` of `decodeQuantum`; a line break
in the input leaves `j` as it was (`j--` then `j++`). -/
def scanQuantum (enc : Encoding) (src : List Nat) : Nat → Nat → Nat → List Nat → Go Scan
  | 0, _, _, _ => throw Abort.outOfFuel
  | fuel + 1, si, j, dbuf =>
    if j < 4 then
      if src.length = si then
        if j = 0 then pure (Scan.ret si 0 none)
        else if j = 1 ∨ enc.padChar ≠ NoPadding then
          pure (Scan.ret si 0 (some ((si : Int) - j)))
        else pure (Scan.brk si dbuf j none)
      else do
        let c ← index src si
        let si := si + 1
        let out := enc.decodeMap c
        if out ≠ 0xff then scanQuantum enc src fuel si (j + 1) (dbuf.set j out)
        else if c = 10 ∨ c = 13 then scanQuantum enc src fuel si j dbuf
        else if (c : Int) ≠ enc.padChar then pure (Scan.ret si 0 (some ((si : Int) - 1)))
        else if j = 0 ∨ j = 1 then pure (Scan.ret si 0 (some ((si : Int) - 1)))
        else if j = 2 then do
          let si ← skipNewlines src (src.length + 1) si
          if si = src.length then pure (Scan.ret si 0 (some (src.length : Int)))
          else do
            let c ← index src si
            if (c : Int) ≠ enc.padChar then pure (Scan.ret si 0 (some ((si : Int) - 1)))
            else do
              let si ← skipNewlines src (src.length + 1) (si + 1)
              pure (Scan.brk si dbuf j (if si < src.length then some (si : Int) else none))
        else do
          let si ← skipNewlines src (src.length + 1) si
          pure (Scan.brk si dbuf j (if si < src.length then some (si : Int) else none))
    else pure (Scan.brk si dbuf 4 none)

/-- Go `(*Encoding).decodeQuantum(dst, src, si)`: returns the slice `dst` as
written, the new source index, the number of bytes written and the error. -/
def decodeQuantum (enc : Encoding) (dst src : List Nat) (si : Nat) :
    Go (List Nat × Nat × Nat × Option CorruptInputError) := do
  match (← scanQuantum enc src (src.length + 5) si 0 [0, 0, 0, 0]) with
  | Scan.ret nsi n err => pure (dst, nsi, n, err)
  | Scan.brk si dbuf dlen err =>
    let val := (dbuf.getD 0 0) <<< 18 ||| (dbuf.getD 1 0) <<< 12 |||
      (dbuf.getD 2 0) <<< 6 ||| (dbuf.getD 3 0)
    let d2 := (val >>> 0) % 256
    let d1 := (val >>> 8) % 256
    let d0 := (val >>> 16) % 256
    if dlen = 4 then do
      let dst ← assign dst 2 d2
      let d2 := 0
      let dst ← assign dst 1 d1
      if enc.strict ∧ d2 ≠ 0 then pure (dst, si, 0, some ((si : Int) - 1))
      else do
        let d1 := 0
        let dst ← assign dst 0 d0
        if enc.strict ∧ (d1 ≠ 0 ∨ d2 ≠ 0) then pure (dst, si, 0, some ((si : Int) - 2))
        else pure (dst, si, dlen - 1, err)
    else if dlen = 3 then do
      let dst ← assign dst 1 d1
      if enc.strict ∧ d2 ≠ 0 then pure (dst, si, 0, some ((si : Int) - 1))
      else do
        let d1 := 0
        let dst ← assign dst 0 d0
        if enc.strict ∧ (d1 ≠ 0 ∨ d2 ≠ 0) then pure (dst, si, 0, some ((si : Int) - 2))
        else pure (dst, si, dlen - 1, err)
    else if dlen = 2 then do
      let dst ← assign dst 0 d0
      if enc.strict ∧ (d1 ≠ 0 ∨ d2 ≠ 0) then pure (dst, si, 0, some ((si : Int) - 2))
      else pure (dst, si, dlen - 1, err)
    else pure (dst, si, dlen - 1, err)

/-- Go `assemble32`: four table entries into a `uint32`; fails when one of
them is `0xff`. -/
def assemble32 (n1 n2 n3 n4 : Nat) : Nat × Bool :=
  if n1 ||| n2 ||| n3 ||| n4 = 0xff then (0, false)
  else ((n1 <<< 26 ||| n2 <<< 20 ||| n3 <<< 14 ||| n4 <<< 8) % 2 ^ 32, true)

/-- Go `assemble64`: eight table entries into a `uint64`; fails when one of
them is `0xff`. -/
def assemble64 (n1 n2 n3 n4 n5 n6 n7 n8 : Nat) : Nat × Bool :=
  if n1 ||| n2 ||| n3 ||| n4 ||| n5 ||| n6 ||| n7 ||| n8 = 0xff then (0, false)
  else ((n1 <<< 58 ||| n2 <<< 52 ||| n3 <<< 46 ||| n4 <<< 40 |||
    n5 <<< 34 ||| n6 <<< 28 ||| n7 <<< 22 ||| n8 <<< 16) % 2 ^ 64, true)

/-- Go `binary.BigEndian.PutUint32(b, v)`. -/
def PutUint32 (b : List Nat) (v : Nat) : Go (List Nat) := do
  let _ ← index b 3
  let b ← assign b 0 ((v >>> 24) % 256)
  let b ← assign b 1 ((v >>> 16) % 256)
  let b ← assign b 2 ((v >>> 8) % 256)
  assign b 3 (v % 256)

/-- Go `binary.BigEndian.PutUint64(b, v)`. -/
def PutUint64 (b : List Nat) (v : Nat) : Go (List Nat) := do
  let _ ← index b 7
  let b ← assign b 0 ((v >>> 56) % 256)
  let b ← assign b 1 ((v >>> 48) % 256)
  let b ← assign b 2 ((v >>> 40) % 256)
  let b ← assign b 3 ((v >>> 32) % 256)
  let b ← assign b 4 ((v >>> 24) % 256)
  let b ← assign b 5 ((v >>> 16) % 256)
  let b ← assign b 6 ((v >>> 8) % 256)
  assign b 7 (v % 256)

/-- How one of the loops of `Decode` ends: by `return n, err`, or by its
condition turning false. -/
inductive Flow where
  | ret (dst : List Nat) (n : Nat) (err : Option CorruptInputError)
  | next (dst : List Nat) (si : Nat) (n : Nat)
  deriving DecidableEq, Repr

/-- The `else` branch shared by the loops of `Decode`:
`si, ninc, err = enc.decodeQuantum(dst[n:], src, si); n += ninc`, the callee
writing through the slice `dst[n:]` into `dst`. -/
def quantumStep (enc : Encoding) (dst src : List Nat) (si n : Nat) :
    Go (List Nat × Nat × Nat × Option CorruptInputError) := do
  let sub ← slice dst n dst.length
  let (sub, si, ninc, err) ← decodeQuantum enc sub src si
  pure (dst.take n ++ sub, si, n + ninc, err)

/-- The first loop of `Decode`:
`for strconv.IntSize >= 64 && len(src)-si >= 8 && len(dst)-n >= 8`. -/
def loop64 (enc : Encoding) (IntSize : Nat) (src : List Nat) :
    Nat → List Nat → Nat → Nat → Go Flow
  | 0, _, _, _ => throw Abort.outOfFuel
  | fuel + 1, dst, si, n =>
    if IntSize ≥ 64 ∧ src.length - si ≥ 8 ∧ dst.length - n ≥ 8 then do
      let src2 ← slice src si (si + 8)
      let (dn, ok) := assemble64
        (enc.decodeMap (src2.getD 0 0)) (enc.decodeMap (src2.getD 1 0))
        (enc.decodeMap (src2.getD 2 0)) (enc.decodeMap (src2.getD 3 0))
        (enc.decodeMap (src2.getD 4 0)) (enc.decodeMap (src2.getD 5 0))
        (enc.decodeMap (src2.getD 6 0)) (enc.decodeMap (src2.getD 7 0))
      if ok then do
        let sub ← slice dst n dst.length
        let sub ← PutUint64 sub dn
        loop64 enc IntSize src fuel (dst.take n ++ sub) (si + 8) (n + 6)
      else do
        let (dst, si, n, err) ← quantumStep enc dst src si n
        if err ≠ none then pure (Flow.ret dst n err)
        else loop64 enc IntSize src fuel dst si n
    else pure (Flow.next dst si n)

/-- The second loop of `Decode`: `for len(src)-si >= 4 && len(dst)-n >= 4`. -/
def loop32 (enc : Encoding) (src : List Nat) : Nat → List Nat → Nat → Nat → Go Flow
  | 0, _, _, _ => throw Abort.outOfFuel
  | fuel + 1, dst, si, n =>
    if src.length - si ≥ 4 ∧ dst.length - n ≥ 4 then do
      let src2 ← slice src si (si + 4)
      let (dn, ok) := assemble32
        (enc.decodeMap (src2.getD 0 0)) (enc.decodeMap (src2.getD 1 0))
        (enc.decodeMap (src2.getD 2 0)) (enc.decodeMap (src2.getD 3 0))
      if ok then do
        let sub ← slice dst n dst.length
        let sub ← PutUint32 sub dn
        loop32 enc src fuel (dst.take n ++ sub) (si + 4) (n + 3)
      else do
        let (dst, si, n, err) ← quantumStep enc dst src si n
        if err ≠ none then pure (Flow.ret dst n err)
        else loop32 enc src fuel dst si n
    else pure (Flow.next dst si n)

/-- The last loop of `Decode`: `for si < len(src)`. -/
def loopTail (enc : Encoding) (src : List Nat) : Nat → List Nat → Nat → Nat → Go Flow
  | 0, _, _, _ => throw Abort.outOfFuel
  | fuel + 1, dst, si, n =>
    if si < src.length then do
      let (dst, si, n, err) ← quantumStep enc dst src si n
      if err ≠ none then pure (Flow.ret dst n err)
      else loopTail enc src fuel dst si n
    else pure (Flow.next dst si n)

/-- Go `(*Encoding).Decode(dst, src)`: returns `dst` as written, the number
`n` of bytes written and the error. `IntSize` is `strconv.IntSize`. When a
loop goes on or is left by its condition, `err` is `nil`. -/
def Decode (enc : Encoding) (IntSize : Nat) (dst src : List Nat) :
    Go (List Nat × Nat × Option CorruptInputError) :=
  if src.length = 0 then pure (dst, 0, none)
  else do
    match (← loop64 enc IntSize src (src.length + 1) dst 0 0) with
    | Flow.ret dst n err => pure (dst, n, err)
    | Flow.next dst si n =>
      match (← loop32 enc src (src.length + 1) dst si n) with
      | Flow.ret dst n err => pure (dst, n, err)
      | Flow.next dst si n =>
        match (← loopTail enc src (src.length + 1) dst si n) with
        | Flow.ret dst n err => pure (dst, n, err)
        | Flow.next dst _ n => pure (dst, n, none)

end base64

/-! ## `internal/config/secrets.go` -/

/-- A Go `error` value that `getSecret` can return: the decoder's
`base64.CorruptInputError`, or any other error value (those of the AWS client),
kept abstract in `ε`. -/
inductive GoError (ε : Type) where
  | corruptInput (offset : base64.CorruptInputError)
  | other (e : ε)
  deriving DecidableEq, Repr

/-- The fields of `secretsmanager.GetSecretValueInput`; `none` is a nil
pointer. -/
structure GetSecretValueInput where
  SecretId : Option String
  VersionId : Option String
  VersionStage : Option String
  deriving DecidableEq, Repr

/-- The fields of `secretsmanager.GetSecretValueOutput` that `getSecret`
reads: `SecretString` is a `*string`, `SecretBinary` a `[]byte`; `none` is nil. -/
structure GetSecretValueOutput where
  SecretString : Option (List Nat)
  SecretBinary : Option (List Nat)
  deriving DecidableEq, Repr

/-- The elements of a slice that may be nil (`len(nil) = 0`). -/
def elems (s : Option (List Nat)) : List Nat := s.getD []

/-- The client `*secretsmanager.SecretsManager`, as far as `getSecret` uses it:
`GetSecretValue` answers a request in a state `σ` of the outside world with a
response or an error, and leaves a new state. -/
structure SecretsManager (σ ε : Type) where
  GetSecretValue : GetSecretValueInput → σ → Except (GoError ε) GetSecretValueOutput × σ

/-- Go `type Secrets struct { svc *secretsmanager.SecretsManager }`. -/
structure Secrets (σ ε : Type) where
  svc : SecretsManager σ ε

/-- Go `NewSecrets`. -/
def NewSecrets {σ ε : Type} (svc : SecretsManager σ ε) : Secrets σ ε := { svc := svc }

/-- Go `aws.String`: a pointer to the string. -/
def aws.String (v : String) : Option String := some v

/-- Go `(*Secrets).getSecret`: the pair `(string, error)` it returns and the
state the call to the store leaves. `IntSize` is `strconv.IntSize` of the
platform. -/
def Secrets.getSecret {σ ε : Type} (IntSize : Nat) (s : Secrets σ ε) (secretKey : String)
    (w : σ) : Go ((List Nat × Option (GoError ε)) × σ) :=
  match s.svc.GetSecretValue
      { SecretId := aws.String secretKey, VersionId := none,
        VersionStage := aws.String "AWSCURRENT" } w with
  | (Except.error err, w) => pure (([], some err), w)
  | (Except.ok r, w) =>
    match r.SecretString with
    | some secretString => pure ((secretString, none), w)
    | none => do
      let decodedBinarySecretBytes :=
        make (base64.DecodedLen base64.StdEncoding (elems r.SecretBinary).length)
      let (decodedBinarySecretBytes, l, err) ←
        base64.Decode base64.StdEncoding IntSize decodedBinarySecretBytes (elems r.SecretBinary)
      match err with
      | some off => pure (([], some (GoError.corruptInput off)), w)
      | none => do
        let secretString ← slice decodedBinarySecretBytes 0 l
        pure ((secretString, none), w)

/-- Go `(*Secrets).GoogleAdminEmail`. -/
def Secrets.GoogleAdminEmail {σ ε : Type} (IntSize : Nat) (s : Secrets σ ε) (w : σ) :
    Go ((List Nat × Option (GoError ε)) × σ) :=
  s.getSecret IntSize "SSOSyncV2GoogleAdminEmail" w

/-- Go `(*Secrets).SCIMAccessToken`. -/
def Secrets.SCIMAccessToken {σ ε : Type} (IntSize : Nat) (s : Secrets σ ε) (w : σ) :
    Go ((List Nat × Option (GoError ε)) × σ) :=
  s.getSecret IntSize "SSOSyncV2SCIMAccessToken" w

/-- Go `(*Secrets).SCIMEndpointUrl`. -/
def Secrets.SCIMEndpointUrl {σ ε : Type} (IntSize : Nat) (s : Secrets σ ε) (w : σ) :
    Go ((List Nat × Option (GoError ε)) × σ) :=
  s.getSecret IntSize "SSOSyncV2SCIMEndpointUrl" w

/-- Go `(*Secrets).GoogleCredentials`. -/
def Secrets.GoogleCredentials {σ ε : Type} (IntSize : Nat) (s : Secrets σ ε) (w : σ) :
    Go ((List Nat × Option (GoError ε)) × σ) :=
  s.getSecret IntSize "SSOSyncV2GoogleCredentials" w

/-- Go `(*Secrets).Region`. -/
def Secrets.Region {σ ε : Type} (IntSize : Nat) (s : Secrets σ ε) (w : σ) :
    Go ((List Nat × Option (GoError ε)) × σ) :=
  s.getSecret IntSize "SSOSyncV2Region" w

/-- Go `(*Secrets).IdentityStoreID`. -/
def Secrets.IdentityStoreID {σ ε : Type} (IntSize : Nat) (s : Secrets σ ε) (w : σ) :
    Go ((List Nat × Option (GoError ε)) × σ) :=
  s.getSecret IntSize "SSOSyncV2IdentityStoreID" w

/-! ## Vocabulary of the statements -/

/-- The six exported getters of `Secrets`. -/
inductive Getter where
  | GoogleAdminEmail
  | SCIMAccessToken
  | SCIMEndpointUrl
  | GoogleCredentials
  | Region
  | IdentityStoreID
  deriving DecidableEq, Repr

/-- The method of `Secrets` a getter name stands for. -/
def Getter.call {σ ε : Type} (g : Getter) (IntSize : Nat) (s : Secrets σ ε) (w : σ) :
    Go ((List Nat × Option (GoError ε)) × σ) :=
  match g with
  | Getter.GoogleAdminEmail => s.GoogleAdminEmail IntSize w
  | Getter.SCIMAccessToken => s.SCIMAccessToken IntSize w
  | Getter.SCIMEndpointUrl => s.SCIMEndpointUrl IntSize w
  | Getter.GoogleCredentials => s.GoogleCredentials IntSize w
  | Getter.Region => s.Region IntSize w
  | Getter.IdentityStoreID => s.IdentityStoreID IntSize w

/-- The secret identifier the spec assigns to each getter. -/
def Getter.secretId : Getter → String
  | Getter.GoogleAdminEmail => "SSOSyncV2GoogleAdminEmail"
  | Getter.SCIMAccessToken => "SSOSyncV2SCIMAccessToken"
  | Getter.SCIMEndpointUrl => "SSOSyncV2SCIMEndpointUrl"
  | Getter.GoogleCredentials => "SSOSyncV2GoogleCredentials"
  | Getter.Region => "SSOSyncV2Region"
  | Getter.IdentityStoreID => "SSOSyncV2IdentityStoreID"

/-- The request for the current stage of a secret. -/
def currentRequest (secretKey : String) : GetSecretValueInput :=
  { SecretId := some secretKey, VersionId := none, VersionStage := some "AWSCURRENT" }

/-- A client that keeps, next to the state of the wrapped client, the list of
the requests it has been sent, oldest first. -/
def recording {σ ε : Type} (c : SecretsManager σ ε) :
    SecretsManager (σ × List GetSecretValueInput) ε :=
  { GetSecretValue := fun req st =>
      ((c.GetSecretValue req st.1).1, ((c.GetSecretValue req st.1).2, st.2 ++ [req])) }

/-- A store as a function from requests to a response or an error. -/
abbrev Store (ε : Type) := GetSecretValueInput → Except (GoError ε) GetSecretValueOutput

/-- The client over a `Store`: reading answers from the store and leaves it
as it is. -/
def storeClient (ε : Type) : SecretsManager (Store ε) ε :=
  { GetSecretValue := fun req st => (st req, st) }

/-- The UTF-8 bytes of a string. -/
def utf8 (s : String) : List Nat := s.toUTF8.data.toList.map UInt8.toNat

/-! ## Cursor forms of the scanning loops

The loops of `decodeQuantum` read `src` at an index; the functions below read
the remaining input `src[si:]` as a list. They are proved equal to the loops
and carry the proofs about them. -/

namespace base64

/-- The number of line-break bytes at the head of the remaining input. -/
def skipCount : List Nat → Nat
  | [] => 0
  | c :: cs => if c = 10 ∨ c = 13 then skipCount cs + 1 else 0

/-- The scanning loop of `decodeQuantum` on the remaining input `rest`, which
starts at index `si` of a source of length `total`. -/
def scanRest (enc : Encoding) (total : Nat) : List Nat → Nat → Nat → List Nat → Scan
  | [], si, j, dbuf =>
    if j < 4 then
      if j = 0 then Scan.ret si 0 none
      else if j = 1 ∨ enc.padChar ≠ NoPadding then Scan.ret si 0 (some ((si : Int) - j))
      else Scan.brk si dbuf j none
    else Scan.brk si dbuf 4 none
  | c :: cs, si, j, dbuf =>
    if j < 4 then
      if enc.decodeMap c ≠ 0xff then scanRest enc total cs (si + 1) (j + 1) (dbuf.set j (enc.decodeMap c))
      else if c = 10 ∨ c = 13 then scanRest enc total cs (si + 1) j dbuf
      else if (c : Int) ≠ enc.padChar then Scan.ret (si + 1) 0 (some (((si + 1 : Nat) : Int) - 1))
      else if j = 0 ∨ j = 1 then Scan.ret (si + 1) 0 (some (((si + 1 : Nat) : Int) - 1))
      else if j = 2 then
        match cs.drop (skipCount cs) with
        | [] => Scan.ret total 0 (some (total : Int))
        | c2 :: cs2 =>
          if (c2 : Int) ≠ enc.padChar then
            Scan.ret (si + 1 + skipCount cs) 0 (some (((si + 1 + skipCount cs : Nat) : Int) - 1))
          else
            Scan.brk (si + 1 + skipCount cs + 1 + skipCount cs2) dbuf j
              (if si + 1 + skipCount cs + 1 + skipCount cs2 < total
                then some ((si + 1 + skipCount cs + 1 + skipCount cs2 : Nat) : Int) else none)
      else
        Scan.brk (si + 1 + skipCount cs) dbuf j
          (if si + 1 + skipCount cs < total then some ((si + 1 + skipCount cs : Nat) : Int) else none)
    else Scan.brk si dbuf 4 none

end base64

/-! ## The decoder on input without line breaks

What `decodeQuantum` and `Decode` of `StdEncoding` compute, written on the
input with its line breaks removed. These functions are proved to agree with
the embedded code and are used to reason about it. -/

namespace base64

/-- The input without its `\n` and `\r` bytes. -/
def stripNewlines (s : List Nat) : List Nat :=
  s.filter (fun c => !(c == 10 || c == 13))

/-- The three bytes `decodeQuantum` assembles from four 6-bit digits. -/
def quantumBytes (d0 d1 d2 d3 : Nat) : List Nat :=
  [((d0 <<< 18 ||| d1 <<< 12 ||| d2 <<< 6 ||| d3) >>> 16) % 256,
   ((d0 <<< 18 ||| d1 <<< 12 ||| d2 <<< 6 ||| d3) >>> 8) % 256,
   ((d0 <<< 18 ||| d1 <<< 12 ||| d2 <<< 6 ||| d3) >>> 0) % 256]

/-- The ways one scan of `decodeQuantum` can end, on input without line
breaks: at the end of the input, at a malformed byte, after four digits (with
the input left), or after padding (with whether input is left after it). -/
inductive Quantum where
  | eof
  | bad
  | full (dbuf : List Nat) (tl : List Nat)
  | pad (dbuf : List Nat) (dlen : Nat) (garbage : Bool)
  deriving DecidableEq, Repr

/-- The scan of `decodeQuantum` for `StdEncoding` on input without line breaks,
from digit `j` on. -/
def scanStripped : List Nat → Nat → List Nat → Quantum
  | [], j, dbuf => if j < 4 then (if j = 0 then Quantum.eof else Quantum.bad) else Quantum.full dbuf []
  | c :: cs, j, dbuf =>
    if j < 4 then
      if StdEncoding.decodeMap c ≠ 0xff then
        scanStripped cs (j + 1) (dbuf.set j (StdEncoding.decodeMap c))
      else if c ≠ 61 then Quantum.bad
      else if j = 0 ∨ j = 1 then Quantum.bad
      else if j = 2 then
        match cs with
        | [] => Quantum.bad
        | c2 :: cs2 => if c2 ≠ 61 then Quantum.bad else Quantum.pad dbuf 2 (!cs2.isEmpty)
      else Quantum.pad dbuf 3 (!cs.isEmpty)
    else Quantum.full dbuf (c :: cs)

/-- That a result of the scanning loop, run on `rest` from index `si` and digit
`j` in a source of length `total`, is the one `scanStripped` describes. -/
def ScanAgrees (total si : Nat) (rest : List Nat) (j : Nat) : Quantum → Scan → Prop
  | Quantum.eof, r => r = Scan.ret total 0 none
  | Quantum.bad, r => ∃ nsi off, r = Scan.ret nsi 0 (some off)
  | Quantum.full d tl, r => ∃ k, k ≤ rest.length ∧ 4 ≤ j + k ∧
      r = Scan.brk (si + k) d 4 none ∧ stripNewlines (rest.drop k) = tl
  | Quantum.pad d dlen g, r => ∃ k, k ≤ rest.length ∧ 4 ≤ j + k ∧
      r = Scan.brk (si + k) d dlen (if g then some ((si + k : Nat) : Int) else none) ∧
      (g = false → k = rest.length)

/-- The bytes `decodeQuantum` writes after a scan: three after four digits,
`dlen - 1` after padding, none otherwise. -/
def quantumOut : Quantum → List Nat
  | Quantum.full d _ => quantumBytes (d.getD 0 0) (d.getD 1 0) (d.getD 2 0) (d.getD 3 0)
  | Quantum.pad d dlen _ =>
    (quantumBytes (d.getD 0 0) (d.getD 1 0) (d.getD 2 0) (d.getD 3 0)).take (dlen - 1)
  | _ => []

/-- That the new index and the error `decodeQuantum` returns, called at index
`si` with `rest` left of a source of length `total`, are the ones the scan
`scanStripped` describes. -/
def StepAgrees (total si : Nat) (rest : List Nat) :
    Quantum → Nat → Option CorruptInputError → Prop
  | Quantum.eof, nsi, err => nsi = total ∧ err = none
  | Quantum.bad, _, err => err ≠ none
  | Quantum.full _ tl, nsi, err => err = none ∧ ∃ k, nsi = si + k ∧ 4 ≤ k ∧ k ≤ rest.length ∧
      stripNewlines (rest.drop k) = tl
  | Quantum.pad _ _ g, nsi, err => (err = none ↔ g = false) ∧ (g = false → nsi = total)

/-- The whole of `Decode` for `StdEncoding` on input without line breaks: the
bytes written and whether the error is `nil`. Groups of four digits give three
bytes each; a group `xx==` or `xxx=` gives one or two bytes and must end the
input; anything else is an error. -/
def decodeStripped : List Nat → List Nat × Bool
  | [] => ([], true)
  | a :: b :: c :: d :: tl =>
    if StdEncoding.decodeMap a ≠ 0xff ∧ StdEncoding.decodeMap b ≠ 0xff then
      if StdEncoding.decodeMap c ≠ 0xff then
        if StdEncoding.decodeMap d ≠ 0xff then
          (quantumBytes (StdEncoding.decodeMap a) (StdEncoding.decodeMap b)
              (StdEncoding.decodeMap c) (StdEncoding.decodeMap d) ++ (decodeStripped tl).1,
            (decodeStripped tl).2)
        else if d = 61 then
          ((quantumBytes (StdEncoding.decodeMap a) (StdEncoding.decodeMap b)
              (StdEncoding.decodeMap c) 0).take 2, tl.isEmpty)
        else ([], false)
      else if c = 61 ∧ d = 61 then
        ((quantumBytes (StdEncoding.decodeMap a) (StdEncoding.decodeMap b) 0 0).take 1,
          tl.isEmpty)
      else ([], false)
    else ([], false)
  | _ => ([], false)

/-- The value of `decodeStripped` in terms of the scan of the first group. -/
def decodeUnfold (q : Quantum) : List Nat × Bool :=
  match q with
  | Quantum.eof => ([], true)
  | Quantum.bad => ([], false)
  | Quantum.full d tl => (quantumOut (Quantum.full d tl) ++ (decodeStripped tl).1,
      (decodeStripped tl).2)
  | Quantum.pad d dlen g => (quantumOut (Quantum.pad d dlen g), !g)

/-- The invariant of the loops of `Decode` over a buffer of length `cap`: the
room left in `dst` covers the groups left in `src`, and the bytes `dst[:n]`
followed by what the rest of the input decodes to are what the whole input
decodes to. -/
def LoopInv (src : List Nat) (cap : Nat) (dst : List Nat) (si n : Nat) : Prop :=
  dst.length = cap ∧ si ≤ src.length ∧ n + 3 * ((src.length - si) / 4) ≤ dst.length ∧
  decodeStripped (stripNewlines src)
    = (dst.take n ++ (decodeStripped (stripNewlines (src.drop si))).1,
       (decodeStripped (stripNewlines (src.drop si))).2)

/-- What `Decode` returns over a buffer of length `cap`: `n` is in range, the
bytes `dst[:n]` are the bytes the input decodes to, and the error is `nil`
exactly when the input is accepted. -/
def DecodePost (src : List Nat) (cap : Nat) (dst : List Nat) (n : Nat)
    (err : Option CorruptInputError) : Prop :=
  dst.length = cap ∧ n ≤ dst.length ∧
  dst.take n = (decodeStripped (stripNewlines src)).1 ∧
  (err = none ↔ (decodeStripped (stripNewlines src)).2 = true)

/-- The end of the last loop of `Decode`. -/
def FlowDone (src : List Nat) (cap : Nat) : Flow → Prop
  | Flow.ret dst n err => err ≠ none ∧ DecodePost src cap dst n err
  | Flow.next dst _ n => DecodePost src cap dst n none

/-- The end of one of the first two loops of `Decode`. -/
def FlowGoesOn (src : List Nat) (cap : Nat) : Flow → Prop
  | Flow.ret dst n err => err ≠ none ∧ DecodePost src cap dst n err
  | Flow.next dst si n => LoopInv src cap dst si n

end base64

namespace base64

/-- The character of the standard alphabet for a 6-bit value. -/
def stdChar (v : Nat) : Nat := encodeStd.getD v 0

/-- The standard padded base64 encoding (RFC 4648, section 4) of a byte
sequence: three bytes give four characters; a last group of one or two bytes
is completed with `=`. -/
def stdEncode : List Nat → List Nat
  | [] => []
  | [x] => [stdChar (x / 4), stdChar (x % 4 * 16), 61, 61]
  | [x, y] => [stdChar (x / 4), stdChar (x % 4 * 16 + y / 16), stdChar (y % 16 * 4), 61]
  | x :: y :: z :: rest =>
    stdChar (x / 4) :: stdChar (x % 4 * 16 + y / 16) :: stdChar (y % 16 * 4 + z / 64) ::
      stdChar (z % 64) :: stdEncode rest

/-- Membership in the standard alphabet. -/
def isAlphabet (c : Nat) : Bool := decide (c ∈ encodeStd)

/-- The padded base64 texts `StdEncoding` accepts once line breaks are
removed: groups of four alphabet characters, the last group possibly `xx==` or
`xxx=`; the bits of the last digit that carry no data are not examined. -/
def wellFormed : List Nat → Bool
  | [] => true
  | a :: b :: c :: d :: tl =>
    isAlphabet a && isAlphabet b &&
      ((isAlphabet c && isAlphabet d && wellFormed tl) ||
       (isAlphabet c && d == 61 && tl.isEmpty) ||
       (c == 61 && d == 61 && tl.isEmpty))
  | _ => false

end base64

/-- A store for the scenarios of the spec: the region in plain-text form, the
Google credentials in binary form, no other secret. -/
def scenarioStore : Store String := fun req =>
  if req = currentRequest "SSOSyncV2Region" then
    Except.ok { SecretString := some (utf8 "us-east-1"), SecretBinary := none }
  else if req = currentRequest "SSOSyncV2GoogleCredentials" then
    Except.ok { SecretString := none,
                SecretBinary := some (utf8 "eyJ0eXBlIjoic2VydmljZV9hY2NvdW50In0=") }
  else Except.error (GoError.other "ResourceNotFoundException")

/-- The accessor over a store. -/
def storeSecrets (ε : Type) : Secrets (Store ε) ε := NewSecrets (storeClient ε)

/-- A store that gives the same answer to every request. -/
def constStore (out : Except (GoError String) GetSecretValueOutput) : Store String :=
  fun _ => out

/-- That base64-decoding a binary payload fails: the call of `Decode` that
`getSecret` makes returns a non-nil error. -/
def DecodeFails (IntSize : Nat) (payload : List Nat) : Prop :=
  ∃ dst n off, base64.Decode base64.StdEncoding IntSize
    (make (base64.DecodedLen base64.StdEncoding payload.length)) payload
      = Except.ok (dst, n, some off)

/-- That a getter, called on an accessor whose client records its requests,
returns what `getSecret` returns for the identifier `secretKey`, and leaves the
record longer by exactly one request: the one for `secretKey` at the stage
`AWSCURRENT`, sent once to the wrapped client. -/
def IssuesOneRequest
    (getter : (σ ε : Type) → Secrets σ ε → σ → Go ((List Nat × Option (GoError ε)) × σ))
    (IntSize : Nat) (secretKey : String) : Prop :=
  ∀ (σ ε : Type) (c : SecretsManager σ ε) (w : σ) (log : List GetSecretValueInput),
    getter (σ × List GetSecretValueInput) ε (NewSecrets (recording c)) (w, log)
      = (NewSecrets (recording c)).getSecret IntSize secretKey (w, log) ∧
    ∃ res, getter (σ × List GetSecretValueInput) ε (NewSecrets (recording c)) (w, log)
      = Except.ok (res,
          ((c.GetSecretValue
              { SecretId := some secretKey, VersionId := none,
                VersionStage := some "AWSCURRENT" } w).2,
           log ++ [{ SecretId := some secretKey, VersionId := none,
                     VersionStage := some "AWSCURRENT" }]))

/-! ## Lemmas on the run-time model -/

theorem index_append (pre : List Nat) (c : Nat) (cs : List Nat) :
    index (pre ++ c :: cs) pre.length = Except.ok c := by
  have h : (pre ++ c :: cs)[pre.length]? = some c := by
    rw [List.getElem?_append_right (Nat.le_refl _)]
    simp
  simp only [index, h]
  rfl

theorem skipCount_le (rest : List Nat) : base64.skipCount rest ≤ rest.length := by
  induction rest with
  | nil => simp [base64.skipCount]
  | cons c cs ih =>
    simp only [base64.skipCount]
    split
    · simp only [List.length_cons]; omega
    · simp

theorem skipNewlines_eq (rest : List Nat) :
    ∀ (pre : List Nat) (fuel : Nat), rest.length + 1 ≤ fuel →
      base64.skipNewlines (pre ++ rest) fuel pre.length
        = Except.ok (pre.length + base64.skipCount rest) := by
  induction rest with
  | nil =>
    intro pre fuel hf
    obtain ⟨f, rfl⟩ : ∃ f, fuel = f + 1 := ⟨fuel - 1, by simp at hf; omega⟩
    simp [base64.skipNewlines, base64.skipCount, pure, Except.pure]
  | cons c cs ih =>
    intro pre fuel hf
    obtain ⟨f, rfl⟩ : ∃ f, fuel = f + 1 := ⟨fuel - 1, by simp at hf; omega⟩
    have hlt : pre.length < (pre ++ c :: cs).length := by simp
    have ih2 := ih (pre ++ [c]) f (by simp at hf ⊢; omega)
    simp only [List.append_assoc, List.singleton_append, List.length_append,
      List.length_singleton] at ih2
    simp only [base64.skipNewlines, hlt, if_true, index_append, bind, Except.bind,
      base64.skipCount]
    by_cases hc : c = 10 ∨ c = 13
    · simp only [hc, if_true, ih2]
      congr 1
      omega
    · simp [hc, pure, Except.pure]

theorem skipNewlines_at (pre rest : List Nat) (si : Nat) (hsi : si = pre.length) :
    base64.skipNewlines (pre ++ rest) ((pre ++ rest).length + 1) si
      = Except.ok (si + base64.skipCount rest) := by
  subst hsi
  exact skipNewlines_eq rest pre _ (by simp)

theorem index_at (pre : List Nat) (c : Nat) (cs : List Nat) (si : Nat) (hsi : si = pre.length) :
    index (pre ++ c :: cs) si = Except.ok c := by
  subst hsi
  exact index_append pre c cs

theorem drop_skipCount_split (cs : List Nat) (c2 : Nat) (cs2 : List Nat)
    (h : cs.drop (base64.skipCount cs) = c2 :: cs2) :
    cs = cs.take (base64.skipCount cs) ++ c2 :: cs2 := by
  rw [← h, List.take_append_drop]

theorem scanQuantum_eq (enc : base64.Encoding) (rest : List Nat) :
    ∀ (pre : List Nat) (fuel j : Nat) (dbuf : List Nat), rest.length + 1 ≤ fuel →
      base64.scanQuantum enc (pre ++ rest) fuel pre.length j dbuf
        = Except.ok (base64.scanRest enc (pre.length + rest.length) rest pre.length j dbuf) := by
  induction rest with
  | nil =>
    intro pre fuel j dbuf hf
    obtain ⟨f, rfl⟩ : ∃ f, fuel = f + 1 := ⟨fuel - 1, by simp at hf; omega⟩
    simp only [base64.scanQuantum, base64.scanRest, List.append_nil, if_true, pure, Except.pure]
    split_ifs <;> rfl
  | cons c cs ih =>
    intro pre fuel j dbuf hf
    obtain ⟨f, rfl⟩ : ∃ f, fuel = f + 1 := ⟨fuel - 1, by simp at hf; omega⟩
    have hne : ¬ (pre ++ c :: cs).length = pre.length := by simp
    have ih2 := fun j dbuf => ih (pre ++ [c]) f j dbuf (by simp at hf ⊢; omega)
    simp only [List.append_assoc, List.singleton_append, List.length_append,
      List.length_singleton] at ih2
    have hlen : pre.length + (c :: cs).length = pre.length + 1 + cs.length := by
      simp only [List.length_cons]; omega
    have htot : (pre ++ c :: cs).length = pre.length + 1 + cs.length := by
      simp only [List.length_append, List.length_cons]; omega
    simp only [base64.scanQuantum, base64.scanRest, hne, if_false, index_append, bind,
      Except.bind, hlen]
    by_cases hj : j < 4
    · simp only [hj, if_true]
      by_cases hout : enc.decodeMap c ≠ 0xff
      · simp only [hout, if_true, ne_eq, not_false_eq_true, ih2]
      · simp only [hout, if_false]
        by_cases hnl : c = 10 ∨ c = 13
        · simp only [hnl, if_true, ih2]
        · simp only [hnl, if_false]
          by_cases hpad : (c : Int) ≠ enc.padChar
          · simp only [hpad, if_true, ne_eq, not_false_eq_true]
            rfl
          · simp only [hpad, if_false]
            by_cases hj01 : j = 0 ∨ j = 1
            · simp only [hj01, if_true]
              rfl
            · simp only [hj01, if_false]
              have e1 : base64.skipNewlines (pre ++ c :: cs) ((pre ++ c :: cs).length + 1)
                  (pre.length + 1) = Except.ok (pre.length + 1 + base64.skipCount cs) := by
                have := skipNewlines_at (pre ++ [c]) cs (pre.length + 1) (by simp)
                simpa using this
              have hk := skipCount_le cs
              by_cases hj2 : j = 2
              · simp only [hj2, if_true, e1]
                cases hd : cs.drop (base64.skipCount cs) with
                | nil =>
                  have hk2 : cs.length ≤ base64.skipCount cs := List.drop_eq_nil_iff.mp hd
                  have hend : base64.skipCount cs = cs.length := by omega
                  simp only [htot, hend, if_true, pure, Except.pure]
                | cons c2 cs2 =>
                  have hsplit := drop_skipCount_split cs c2 cs2 hd
                  have hlen2 : cs.length = base64.skipCount cs + 1 + cs2.length := by
                    have := congrArg List.length hsplit
                    simp only [List.length_append, List.length_take, List.length_cons] at this
                    omega
                  have hnend : ¬ pre.length + 1 + base64.skipCount cs
                      = pre.length + 1 + cs.length := by omega
                  have hsrc : pre ++ c :: cs
                      = (pre ++ c :: cs.take (base64.skipCount cs)) ++ c2 :: cs2 := by
                    conv_lhs => rw [hsplit]
                    simp
                  have hplen : (pre ++ c :: cs.take (base64.skipCount cs)).length
                      = pre.length + 1 + base64.skipCount cs := by
                    simp only [List.length_append, List.length_cons, List.length_take]
                    omega
                  have e2 : index (pre ++ c :: cs) (pre.length + 1 + base64.skipCount cs)
                      = Except.ok c2 := by
                    rw [hsrc]
                    exact index_at _ c2 cs2 _ hplen.symm
                  have e3 : base64.skipNewlines (pre ++ c :: cs) ((pre ++ c :: cs).length + 1)
                      (pre.length + 1 + base64.skipCount cs + 1)
                      = Except.ok (pre.length + 1 + base64.skipCount cs + 1
                          + base64.skipCount cs2) := by
                    have hsrc2 : pre ++ c :: cs
                        = (pre ++ c :: cs.take (base64.skipCount cs) ++ [c2]) ++ cs2 := by
                      conv_lhs => rw [hsplit]
                      simp
                    rw [hsrc2]
                    exact skipNewlines_at _ cs2 _ (by
                      simp only [List.length_append, List.length_cons, List.length_take,
                        List.length_nil]
                      omega)
                  simp only [e2, pure, Except.pure]
                  simp only [htot, hnend, if_false]
                  by_cases hpad2 : (c2 : Int) ≠ enc.padChar
                  · simp only [hpad2, if_true, ne_eq, not_false_eq_true]
                  · rw [htot] at e3
                    simp only [hpad2, if_false, e3]
              · simp only [hj2, if_false, e1, pure, Except.pure]
                simp only [htot]
    · simp only [hj, if_false]
      rfl

/-! ## The reverse table of `StdEncoding` -/

theorem buildDecodeMap_range (cs : List Nat) :
    ∀ (i : Nat) (m : Nat → Nat) (x : Nat),
      base64.buildDecodeMap cs i m x = m x ∨
        ∃ k, k < cs.length ∧ base64.buildDecodeMap cs i m x = (i + k) % 256 := by
  induction cs with
  | nil => intro i m x; left; rfl
  | cons c cs ih =>
    intro i m x
    simp only [base64.buildDecodeMap]
    rcases ih (i + 1) (fun x => if x = c then i % 256 else m x) x with h | ⟨k, hk, h⟩
    · by_cases hx : x = c
      · right
        refine ⟨0, by simp, ?_⟩
        rw [h]; simp [hx]
      · left
        rw [h]; simp [hx]
    · right
      refine ⟨k + 1, by simp; omega, ?_⟩
      rw [h]
      congr 1
      omega

theorem decodeMap_range (c : Nat) :
    base64.StdEncoding.decodeMap c < 64 ∨ base64.StdEncoding.decodeMap c = 0xff := by
  have hlen : base64.encodeStd.length = 64 := by decide
  rcases buildDecodeMap_range base64.encodeStd 0 (fun _ => 0xff) c with h | ⟨k, hk, h⟩
  · right; exact h
  · left
    show base64.buildDecodeMap base64.encodeStd 0 (fun _ => 0xff) c < 64
    rw [h]
    rw [hlen] at hk
    omega

theorem decodeMap_lf : base64.StdEncoding.decodeMap 10 = 0xff := by decide

theorem decodeMap_cr : base64.StdEncoding.decodeMap 13 = 0xff := by decide

theorem decodeMap_pad : base64.StdEncoding.decodeMap 61 = 0xff := by decide

theorem padChar_std : base64.StdEncoding.padChar = 61 := rfl

theorem strict_std : base64.StdEncoding.strict = false := rfl

/-! ## The scanning loop on input without line breaks -/

theorem strip_cons_nl (c : Nat) (cs : List Nat) (h : c = 10 ∨ c = 13) :
    base64.stripNewlines (c :: cs) = base64.stripNewlines cs := by
  rcases h with h | h <;> simp [base64.stripNewlines, h]

theorem strip_cons_other (c : Nat) (cs : List Nat) (h : ¬ (c = 10 ∨ c = 13)) :
    base64.stripNewlines (c :: cs) = c :: base64.stripNewlines cs := by
  have h1 : c ≠ 10 := fun e => h (Or.inl e)
  have h2 : c ≠ 13 := fun e => h (Or.inr e)
  simp [base64.stripNewlines, h1, h2]

theorem strip_nil_iff (cs : List Nat) :
    base64.stripNewlines cs = [] ↔ base64.skipCount cs = cs.length := by
  induction cs with
  | nil => simp [base64.stripNewlines, base64.skipCount]
  | cons c cs ih =>
    by_cases h : c = 10 ∨ c = 13
    · rw [strip_cons_nl c cs h, ih]
      simp [base64.skipCount, h]
    · rw [strip_cons_other c cs h]
      simp [base64.skipCount, h]

theorem strip_drop_skip (cs : List Nat) :
    base64.stripNewlines (cs.drop (base64.skipCount cs)) = base64.stripNewlines cs := by
  induction cs with
  | nil => simp [base64.skipCount]
  | cons c cs ih =>
    by_cases h : c = 10 ∨ c = 13
    · rw [strip_cons_nl c cs h]
      simp only [base64.skipCount, h, if_true, List.drop_succ_cons]
      exact ih
    · simp [base64.skipCount, h]

theorem head_drop_skip (cs : List Nat) (c2 : Nat) (cs2 : List Nat)
    (h : cs.drop (base64.skipCount cs) = c2 :: cs2) : ¬ (c2 = 10 ∨ c2 = 13) := by
  induction cs with
  | nil => simp [base64.skipCount] at h
  | cons c cs ih =>
    by_cases hc : c = 10 ∨ c = 13
    · simp only [base64.skipCount, hc, if_true, List.drop_succ_cons] at h
      exact ih h
    · simp only [base64.skipCount, hc, if_false, List.drop_zero, List.cons.injEq] at h
      rw [← h.1]
      exact hc

theorem scanStripped_done (s : List Nat) (j : Nat) (dbuf : List Nat) (hj : ¬ j < 4) :
    base64.scanStripped s j dbuf = base64.Quantum.full dbuf s := by
  cases s <;> simp [base64.scanStripped, hj]

theorem scanAgrees_shift (total si : Nat) (c : Nat) (cs : List Nat) (j j2 : Nat)
    (q : base64.Quantum) (r : base64.Scan) (hj : j2 ≤ j + 1)
    (h : base64.ScanAgrees total (si + 1) cs j2 q r) :
    base64.ScanAgrees total si (c :: cs) j q r := by
  cases q with
  | eof => exact h
  | bad => exact h
  | full d tl =>
    obtain ⟨k, hk, hjk, hr, hs⟩ := h
    refine ⟨k + 1, by simp; omega, by omega, ?_, by simpa using hs⟩
    rw [hr]
    congr 1
    omega
  | pad d dlen g =>
    obtain ⟨k, hk, hjk, hr, hg⟩ := h
    refine ⟨k + 1, by simp; omega, by omega, ?_, ?_⟩
    · rw [hr]
      have e : si + 1 + k = si + (k + 1) := by omega
      rw [e]
    · intro hg2
      simp [hg hg2]

theorem scanRest_agrees (rest : List Nat) :
    ∀ (si j : Nat) (dbuf : List Nat),
      base64.ScanAgrees (si + rest.length) si rest j
        (base64.scanStripped (base64.stripNewlines rest) j dbuf)
        (base64.scanRest base64.StdEncoding (si + rest.length) rest si j dbuf) := by
  induction rest with
  | nil =>
    intro si j dbuf
    simp only [base64.stripNewlines, List.filter_nil, base64.scanStripped, base64.scanRest,
      padChar_std, List.length_nil, Nat.add_zero]
    by_cases hj : j < 4
    · by_cases hj0 : j = 0
      · simp [hj0, base64.ScanAgrees]
      · have hp : (61 : Int) ≠ base64.NoPadding := by decide
        simp only [hj, hj0, if_true, if_false, ne_eq, hp, not_false_eq_true, or_true]
        exact ⟨_, _, rfl⟩
    · simp only [hj, if_false]
      exact ⟨0, by simp, by omega, rfl, rfl⟩
  | cons c cs ih =>
    intro si j dbuf
    have htot : si + (c :: cs).length = si + 1 + cs.length := by
      simp only [List.length_cons]; omega
    rw [htot]
    by_cases hj : j < 4
    · by_cases hout : base64.StdEncoding.decodeMap c = 0xff
      swap
      · have hnl : ¬ (c = 10 ∨ c = 13) := by
          rintro (h | h)
          · exact hout (h ▸ decodeMap_lf)
          · exact hout (h ▸ decodeMap_cr)
        rw [strip_cons_other c cs hnl]
        simp only [base64.scanStripped, base64.scanRest, hj, if_true, hout, ne_eq,
          not_false_eq_true]
        exact scanAgrees_shift _ si c cs j (j + 1) _ _ (Nat.le_refl _) (ih (si + 1) (j + 1) _)
      · by_cases hnl : c = 10 ∨ c = 13
        · rw [strip_cons_nl c cs hnl]
          simp only [base64.scanRest, hj, if_true, hout, if_false, hnl, ne_eq,
            not_true_eq_false]
          exact scanAgrees_shift _ si c cs j j _ _ (Nat.le_succ _) (ih (si + 1) j dbuf)
        · rw [strip_cons_other c cs hnl]
          simp only [base64.scanStripped, base64.scanRest, hj, if_true, hout, if_false, hnl,
            padChar_std, ne_eq, not_true_eq_false]
          by_cases hpad : c = 61
          · have hpad2 : ¬ ((c : Int) ≠ 61) := by omega
            simp only [hpad2, if_false, hpad, ne_eq, not_true_eq_false]
            by_cases hj01 : j = 0 ∨ j = 1
            · simp only [hj01, if_true]
              exact ⟨_, _, rfl⟩
            · simp only [hj01, if_false]
              have hk := skipCount_le cs
              by_cases hj2 : j = 2
              · simp only [hj2, if_true]
                cases hd : cs.drop (base64.skipCount cs) with
                | nil =>
                  have hs : base64.stripNewlines cs = [] := by
                    rw [← strip_drop_skip, hd]; rfl
                  rw [hs]
                  exact ⟨_, _, rfl⟩
                | cons c2 cs2 =>
                  have hc2 := head_drop_skip cs c2 cs2 hd
                  have hs : base64.stripNewlines cs = c2 :: base64.stripNewlines cs2 := by
                    rw [← strip_drop_skip, hd, strip_cons_other c2 cs2 hc2]
                  have hlen2 : cs.length = base64.skipCount cs + 1 + cs2.length := by
                    have := congrArg List.length (drop_skipCount_split cs c2 cs2 hd)
                    simp only [List.length_append, List.length_take, List.length_cons] at this
                    omega
                  have hk2 := skipCount_le cs2
                  rw [hs]
                  by_cases hp2 : c2 = 61
                  · have hp2i : ¬ ((c2 : Int) ≠ 61) := by omega
                    simp only [hp2i, if_false, hp2, ne_eq, not_true_eq_false]
                    refine ⟨1 + base64.skipCount cs + 1 + base64.skipCount cs2,
                      by simp only [List.length_cons]; omega, by omega, ?_, ?_⟩
                    · have e : si + (1 + base64.skipCount cs + 1 + base64.skipCount cs2)
                          = si + 1 + base64.skipCount cs + 1 + base64.skipCount cs2 := by omega
                      rw [e]
                      by_cases hg : base64.stripNewlines cs2 = []
                      · have := (strip_nil_iff cs2).mp hg
                        have hlt : ¬ si + 1 + base64.skipCount cs + 1 + base64.skipCount cs2
                            < si + 1 + cs.length := by omega
                        simp [hg, hlt]
                      · have : base64.skipCount cs2 ≠ cs2.length :=
                          fun e => hg ((strip_nil_iff cs2).mpr e)
                        have hlt : si + 1 + base64.skipCount cs + 1 + base64.skipCount cs2
                            < si + 1 + cs.length := by omega
                        simp [hg, hlt]
                    · intro hg
                      have hg2 : base64.stripNewlines cs2 = [] := by simpa using hg
                      have := (strip_nil_iff cs2).mp hg2
                      simp only [List.length_cons]
                      omega
                  · have hp2i : (c2 : Int) ≠ 61 := by omega
                    simp only [hp2i, if_true, hp2, ne_eq, not_false_eq_true]
                    exact ⟨_, _, rfl⟩
              · simp only [hj2, if_false]
                have hj3 : j = 3 := by omega
                subst hj3
                refine ⟨1 + base64.skipCount cs, by simp only [List.length_cons]; omega,
                  by omega, ?_, ?_⟩
                · have e : si + (1 + base64.skipCount cs) = si + 1 + base64.skipCount cs := by
                    omega
                  rw [e]
                  by_cases hg : base64.stripNewlines cs = []
                  · have := (strip_nil_iff cs).mp hg
                    have hlt : ¬ si + 1 + base64.skipCount cs < si + 1 + cs.length := by omega
                    simp [hg, hlt]
                  · have : base64.skipCount cs ≠ cs.length :=
                      fun e => hg ((strip_nil_iff cs).mpr e)
                    have hlt : si + 1 + base64.skipCount cs < si + 1 + cs.length := by omega
                    simp [hg, hlt]
                · intro hg
                  have hg2 : base64.stripNewlines cs = [] := by simpa using hg
                  have := (strip_nil_iff cs).mp hg2
                  simp only [List.length_cons]
                  omega
          · have hpad2 : (c : Int) ≠ 61 := by omega
            simp only [hpad2, if_true, hpad, ne_eq, not_false_eq_true]
            exact ⟨_, _, rfl⟩
    · rw [scanStripped_done _ _ _ hj]
      simp only [base64.scanRest, hj, if_false]
      exact ⟨0, by simp, by omega, rfl, rfl⟩

/-! ## `decodeQuantum` -/

theorem scanStripped_pad (s : List Nat) :
    ∀ (j : Nat) (dbuf d : List Nat) (dlen : Nat) (g : Bool),
      base64.scanStripped s j dbuf = base64.Quantum.pad d dlen g → dlen = 2 ∨ dlen = 3 := by
  induction s with
  | nil =>
    intro j dbuf d dlen g h
    simp only [base64.scanStripped] at h
    split_ifs at h
  | cons c cs ih =>
    intro j dbuf d dlen g h
    simp only [base64.scanStripped] at h
    split_ifs at h with h1 h2 h3 h4 h5
    · exact ih _ _ _ _ _ h
    · cases cs with
      | nil => simp at h
      | cons c2 cs2 =>
        simp only at h
        split_ifs at h
        simp only [base64.Quantum.pad.injEq] at h
        left; exact h.2.1.symm
    · simp only [base64.Quantum.pad.injEq] at h
      right; exact h.2.1.symm

theorem exists_cons3 (l : List Nat) (h : 3 ≤ l.length) :
    ∃ x0 x1 x2 tl, l = x0 :: x1 :: x2 :: tl := by
  match l, h with
  | x0 :: x1 :: x2 :: tl, _ => exact ⟨x0, x1, x2, tl, rfl⟩

theorem decodeQuantum_spec (sub pre rest : List Nat)
    (hcap : 4 ≤ rest.length → 3 ≤ sub.length) :
    ∃ nsi err,
      base64.decodeQuantum base64.StdEncoding sub (pre ++ rest) pre.length
        = Except.ok
          (base64.quantumOut
              (base64.scanStripped (base64.stripNewlines rest) 0 [0, 0, 0, 0]) ++
            sub.drop (base64.quantumOut
              (base64.scanStripped (base64.stripNewlines rest) 0 [0, 0, 0, 0])).length,
           nsi,
           (base64.quantumOut
              (base64.scanStripped (base64.stripNewlines rest) 0 [0, 0, 0, 0])).length,
           err) ∧
      base64.StepAgrees (pre.length + rest.length) pre.length rest
        (base64.scanStripped (base64.stripNewlines rest) 0 [0, 0, 0, 0]) nsi err ∧
      (base64.quantumOut
        (base64.scanStripped (base64.stripNewlines rest) 0 [0, 0, 0, 0])).length
          ≤ sub.length := by
  have hscan := scanQuantum_eq base64.StdEncoding rest pre ((pre ++ rest).length + 5) 0
    [0, 0, 0, 0] (by simp; omega)
  have hag := scanRest_agrees rest pre.length 0 [0, 0, 0, 0]
  simp only [base64.decodeQuantum, hscan, bind, Except.bind]
  generalize hq : base64.scanStripped (base64.stripNewlines rest) 0 [0, 0, 0, 0] = q at hag ⊢
  generalize base64.scanRest base64.StdEncoding (pre.length + rest.length) rest pre.length 0
    [0, 0, 0, 0] = r at hag ⊢
  cases q with
  | eof =>
    simp only [base64.ScanAgrees] at hag
    subst hag
    exact ⟨_, _, by simp [base64.quantumOut, pure, Except.pure], ⟨rfl, rfl⟩, by
      simp [base64.quantumOut]⟩
  | bad =>
    obtain ⟨nsi, off, rfl⟩ := hag
    exact ⟨nsi, some off, by simp [base64.quantumOut, pure, Except.pure], by
      simp [base64.StepAgrees], by simp [base64.quantumOut]⟩
  | full d tl =>
    obtain ⟨k, hk, hjk, rfl, hs⟩ := hag
    obtain ⟨x0, x1, x2, xs, rfl⟩ := exists_cons3 sub (hcap (by omega))
    refine ⟨pre.length + k, none, ?_, ⟨rfl, k, rfl, by omega, hk, hs⟩, by
      simp [base64.quantumOut, base64.quantumBytes]⟩
    simp [base64.quantumOut, base64.quantumBytes, assign, strict_std, pure, Except.pure]
  | pad d dlen g =>
    obtain ⟨k, hk, hjk, rfl, hg⟩ := hag
    obtain ⟨x0, x1, x2, xs, rfl⟩ := exists_cons3 sub (hcap (by omega))
    refine ⟨pre.length + k, (if g then some ((pre.length + k : Nat) : Int) else none),
      ?_, ⟨?_, ?_⟩, ?_⟩
    · rcases scanStripped_pad _ _ _ _ _ _ hq with h | h <;> subst h <;>
        simp [base64.quantumOut, base64.quantumBytes, assign, strict_std, pure, Except.pure]
    · cases g <;> simp
    · intro hg2
      rw [hg hg2]
    · simp only [base64.quantumOut, List.length_take, base64.quantumBytes, List.length_cons,
        List.length_nil]
      omega

theorem decodeStripped_unfold (s : List Nat) :
    base64.decodeStripped s
      = base64.decodeUnfold (base64.scanStripped s 0 [0, 0, 0, 0]) := by
  have hpad := decodeMap_pad
  match s with
  | [] => simp [base64.decodeStripped, base64.scanStripped, base64.decodeUnfold]
  | [a] =>
    by_cases ha : base64.StdEncoding.decodeMap a = 255 <;> by_cases ha2 : a = 61 <;>
      simp [hpad, base64.decodeStripped, base64.scanStripped, base64.decodeUnfold, ha, ha2]
  | [a, b] =>
    by_cases ha : base64.StdEncoding.decodeMap a = 255 <;> by_cases ha2 : a = 61 <;>
    by_cases hb : base64.StdEncoding.decodeMap b = 255 <;> by_cases hb2 : b = 61 <;>
      simp [hpad, base64.decodeStripped, base64.scanStripped, base64.decodeUnfold, ha, ha2, hb, hb2]
  | [a, b, c] =>
    by_cases ha : base64.StdEncoding.decodeMap a = 255 <;> by_cases ha2 : a = 61 <;>
    by_cases hb : base64.StdEncoding.decodeMap b = 255 <;> by_cases hb2 : b = 61 <;>
    by_cases hc : base64.StdEncoding.decodeMap c = 255 <;> by_cases hc2 : c = 61 <;>
      simp [hpad, base64.decodeStripped, base64.scanStripped, base64.decodeUnfold, ha, ha2, hb, hb2,
        hc, hc2]
  | a :: b :: c :: d :: tl =>
    by_cases ha : base64.StdEncoding.decodeMap a = 255
    · by_cases ha2 : a = 61 <;>
        simp [hpad, base64.decodeStripped, base64.scanStripped, base64.decodeUnfold, ha, ha2]
    · by_cases hb : base64.StdEncoding.decodeMap b = 255
      · by_cases hb2 : b = 61 <;>
          simp [hpad, base64.decodeStripped, base64.scanStripped, base64.decodeUnfold, ha, hb, hb2]
      · by_cases hc : base64.StdEncoding.decodeMap c = 255
        · by_cases hc2 : c = 61 <;> by_cases hd2 : d = 61 <;>
            simp [hpad, base64.decodeStripped, base64.scanStripped, base64.decodeUnfold,
              base64.quantumOut, ha, hb, hc, hc2, hd2]
        · by_cases hd : base64.StdEncoding.decodeMap d = 255
          · by_cases hd2 : d = 61 <;>
              simp [hpad, base64.decodeStripped, base64.scanStripped, base64.decodeUnfold,
                base64.quantumOut, ha, hb, hc, hd, hd2]
          · have h4 : base64.scanStripped tl 4
                [base64.StdEncoding.decodeMap a, base64.StdEncoding.decodeMap b,
                  base64.StdEncoding.decodeMap c, base64.StdEncoding.decodeMap d]
                = base64.Quantum.full
                  [base64.StdEncoding.decodeMap a, base64.StdEncoding.decodeMap b,
                    base64.StdEncoding.decodeMap c, base64.StdEncoding.decodeMap d] tl :=
              scanStripped_done _ _ _ (by omega)
            simp [hpad, base64.decodeStripped, base64.scanStripped, base64.decodeUnfold,
              base64.quantumOut, ha, hb, hc, hd, h4]

/-! ## Bit arithmetic of the assembling functions -/

theorem or_eq_add (k x y : Nat) (hx : x % 2 ^ k = 0) (hy : y < 2 ^ k) : x ||| y = x + y := by
  have hx2 : x = 2 ^ k * (x / 2 ^ k) := by
    have := Nat.div_add_mod x (2 ^ k)
    omega
  rw [hx2, ← Nat.mul_add_lt_is_or hy]

theorem or4 (a b c d : Nat) (hb : b < 64) (hc : c < 64) (hd : d < 64) :
    a <<< 18 ||| b <<< 12 ||| c <<< 6 ||| d = a * 262144 + b * 4096 + c * 64 + d := by
  simp only [Nat.shiftLeft_eq]
  norm_num
  rw [or_eq_add 18 (a * 262144) (b * 4096) (by omega) (by omega)]
  rw [or_eq_add 12 (a * 262144 + b * 4096) (c * 64) (by omega) (by omega)]
  rw [or_eq_add 6 _ d (by omega) (by omega)]

set_option maxRecDepth 100000 in
theorem or255_aux : ∀ x, x < 256 → x ||| 255 = 255 ∧ 255 ||| x = 255 := by decide

theorem or255 (a b : Nat) (ha : a < 64 ∨ a = 255) (hb : b < 64 ∨ b = 255) :
    (a ||| b < 64 ∨ a ||| b = 255) ∧ (a ||| b = 255 ↔ a = 255 ∨ b = 255) := by
  rcases ha with ha | ha <;> rcases hb with hb | hb
  · have : a ||| b < 2 ^ 6 := Nat.or_lt_two_pow (by omega) (by omega)
    norm_num at this
    exact ⟨Or.inl this, by omega⟩
  · subst hb
    have := (or255_aux a (by omega)).1
    exact ⟨Or.inr this, by simp [this]⟩
  · subst ha
    have := (or255_aux b (by omega)).2
    exact ⟨Or.inr this, by simp [this]⟩
  · subst ha; subst hb
    exact ⟨Or.inr (by decide), by decide⟩

theorem assemble32_ok (a b c d : Nat) (ha : a < 64 ∨ a = 255) (hb : b < 64 ∨ b = 255)
    (hc : c < 64 ∨ c = 255) (hd : d < 64 ∨ d = 255) :
    (base64.assemble32 a b c d).2 = true ↔ a ≠ 255 ∧ b ≠ 255 ∧ c ≠ 255 ∧ d ≠ 255 := by
  have h1 := or255 a b ha hb
  have h2 := or255 _ c h1.1 hc
  have h3 := or255 _ d h2.1 hd
  unfold base64.assemble32
  by_cases h : a ||| b ||| c ||| d = 255
  · simp only [h, if_true]
    have := h3.2.mp h
    rw [h2.2, h1.2] at this
    simp
    omega
  · simp only [h, if_false]
    have := mt h3.2.mpr h
    rw [h2.2, h1.2] at this
    simp
    omega

theorem assemble32_val (a b c d : Nat) (ha : a < 64) (hb : b < 64) (hc : c < 64) (hd : d < 64) :
    (base64.assemble32 a b c d).1 = a * 67108864 + b * 1048576 + c * 16384 + d * 256 := by
  have hne : ¬ (a ||| b ||| c ||| d = 255) := by
    intro h
    have := (assemble32_ok a b c d (Or.inl ha) (Or.inl hb) (Or.inl hc) (Or.inl hd)).mpr
      ⟨by omega, by omega, by omega, by omega⟩
    simp [base64.assemble32, h] at this
  simp only [base64.assemble32, hne, if_false, Nat.shiftLeft_eq]
  norm_num
  rw [or_eq_add 26 (a * 67108864) (b * 1048576) (by omega) (by omega)]
  rw [or_eq_add 20 _ (c * 16384) (by omega) (by omega)]
  rw [or_eq_add 14 _ (d * 256) (by omega) (by omega)]
  omega

theorem quantumBytes_val (a b c d : Nat) (_ha : a < 64) (hb : b < 64) (hc : c < 64)
    (hd : d < 64) :
    base64.quantumBytes a b c d
      = [(a * 262144 + b * 4096 + c * 64 + d) / 65536 % 256,
         (a * 262144 + b * 4096 + c * 64 + d) / 256 % 256,
         (a * 262144 + b * 4096 + c * 64 + d) % 256] := by
  simp only [base64.quantumBytes, or4 a b c d hb hc hd, Nat.shiftRight_eq_div_pow]
  norm_num

theorem fast32_bytes (a b c d : Nat) (ha : a < 64) (hb : b < 64) (hc : c < 64) (hd : d < 64) :
    [((base64.assemble32 a b c d).1 >>> 24) % 256, ((base64.assemble32 a b c d).1 >>> 16) % 256,
      ((base64.assemble32 a b c d).1 >>> 8) % 256] = base64.quantumBytes a b c d := by
  rw [quantumBytes_val a b c d ha hb hc hd, assemble32_val a b c d ha hb hc hd]
  simp only [Nat.shiftRight_eq_div_pow]
  norm_num
  refine ⟨?_, ?_, ?_⟩ <;> omega

theorem assemble64_ok (a b c d e f g h : Nat) (ha : a < 64 ∨ a = 255) (hb : b < 64 ∨ b = 255)
    (hc : c < 64 ∨ c = 255) (hd : d < 64 ∨ d = 255) (he : e < 64 ∨ e = 255)
    (hf : f < 64 ∨ f = 255) (hg : g < 64 ∨ g = 255) (hh : h < 64 ∨ h = 255) :
    (base64.assemble64 a b c d e f g h).2 = true ↔
      a ≠ 255 ∧ b ≠ 255 ∧ c ≠ 255 ∧ d ≠ 255 ∧ e ≠ 255 ∧ f ≠ 255 ∧ g ≠ 255 ∧ h ≠ 255 := by
  have h1 := or255 a b ha hb
  have h2 := or255 _ c h1.1 hc
  have h3 := or255 _ d h2.1 hd
  have h4 := or255 _ e h3.1 he
  have h5 := or255 _ f h4.1 hf
  have h6 := or255 _ g h5.1 hg
  have h7 := or255 _ h h6.1 hh
  unfold base64.assemble64
  by_cases hx : a ||| b ||| c ||| d ||| e ||| f ||| g ||| h = 255
  · simp only [hx, if_true]
    have := h7.2.mp hx
    rw [h6.2, h5.2, h4.2, h3.2, h2.2, h1.2] at this
    simp
    omega
  · simp only [hx, if_false]
    have := mt h7.2.mpr hx
    rw [h6.2, h5.2, h4.2, h3.2, h2.2, h1.2] at this
    simp
    omega

theorem assemble64_val (a b c d e f g h : Nat) (ha : a < 64) (hb : b < 64) (hc : c < 64)
    (hd : d < 64) (he : e < 64) (hf : f < 64) (hg : g < 64) (hh : h < 64) :
    (base64.assemble64 a b c d e f g h).1
      = a * 288230376151711744 + b * 4503599627370496 + c * 70368744177664 + d * 1099511627776
        + e * 17179869184 + f * 268435456 + g * 4194304 + h * 65536 := by
  have hne : ¬ (a ||| b ||| c ||| d ||| e ||| f ||| g ||| h = 255) := by
    intro hx
    have := (assemble64_ok a b c d e f g h (Or.inl ha) (Or.inl hb) (Or.inl hc) (Or.inl hd)
      (Or.inl he) (Or.inl hf) (Or.inl hg) (Or.inl hh)).mpr
      ⟨by omega, by omega, by omega, by omega, by omega, by omega, by omega, by omega⟩
    simp [base64.assemble64, hx] at this
  simp only [base64.assemble64, hne, if_false, Nat.shiftLeft_eq]
  norm_num
  rw [or_eq_add 58 (a * 288230376151711744) (b * 4503599627370496) (by omega) (by omega)]
  rw [or_eq_add 52 _ (c * 70368744177664) (by omega) (by omega)]
  rw [or_eq_add 46 _ (d * 1099511627776) (by omega) (by omega)]
  rw [or_eq_add 40 _ (e * 17179869184) (by omega) (by omega)]
  rw [or_eq_add 34 _ (f * 268435456) (by omega) (by omega)]
  rw [or_eq_add 28 _ (g * 4194304) (by omega) (by omega)]
  rw [or_eq_add 22 _ (h * 65536) (by omega) (by omega)]
  omega

theorem fast64_bytes (a b c d e f g h : Nat) (ha : a < 64) (hb : b < 64) (hc : c < 64)
    (hd : d < 64) (he : e < 64) (hf : f < 64) (hg : g < 64) (hh : h < 64) :
    [((base64.assemble64 a b c d e f g h).1 >>> 56) % 256, ((base64.assemble64 a b c d e f g h).1 >>> 48) % 256,
      ((base64.assemble64 a b c d e f g h).1 >>> 40) % 256, ((base64.assemble64 a b c d e f g h).1 >>> 32) % 256,
      ((base64.assemble64 a b c d e f g h).1 >>> 24) % 256, ((base64.assemble64 a b c d e f g h).1 >>> 16) % 256]
      = base64.quantumBytes a b c d ++ base64.quantumBytes e f g h := by
  rw [quantumBytes_val a b c d ha hb hc hd, quantumBytes_val e f g h he hf hg hh,
    assemble64_val a b c d e f g h ha hb hc hd he hf hg hh]
  simp only [Nat.shiftRight_eq_div_pow]
  norm_num
  refine ⟨?_, ?_, ?_, ?_, ?_, ?_⟩ <;> omega

/-! ## The loops of `Decode` -/

theorem slice_from (dst : List Nat) (n : Nat) (hn : n ≤ dst.length) :
    slice dst n dst.length = Except.ok (dst.drop n) := by
  simp [slice, hn, pure, Except.pure]

theorem quantumStep_spec (dst src : List Nat) (si n : Nat) (hsi : si ≤ src.length)
    (hn : n ≤ dst.length) (hcap : 4 ≤ src.length - si → n + 3 ≤ dst.length) :
    ∃ dst2 nsi err,
      base64.quantumStep base64.StdEncoding dst src si n
        = Except.ok (dst2, nsi,
            n + (base64.quantumOut (base64.scanStripped
              (base64.stripNewlines (src.drop si)) 0 [0, 0, 0, 0])).length, err) ∧
      dst2.length = dst.length ∧
      n + (base64.quantumOut (base64.scanStripped
              (base64.stripNewlines (src.drop si)) 0 [0, 0, 0, 0])).length ≤ dst.length ∧
      dst2.take (n + (base64.quantumOut (base64.scanStripped
              (base64.stripNewlines (src.drop si)) 0 [0, 0, 0, 0])).length)
        = dst.take n ++ base64.quantumOut (base64.scanStripped
              (base64.stripNewlines (src.drop si)) 0 [0, 0, 0, 0]) ∧
      base64.StepAgrees src.length si (src.drop si)
        (base64.scanStripped (base64.stripNewlines (src.drop si)) 0 [0, 0, 0, 0]) nsi err := by
  have hpre : (src.take si).length = si := by simp [hsi]
  have hrest : (src.drop si).length = src.length - si := by simp
  obtain ⟨nsi, err, hdq, hag, hlen⟩ := decodeQuantum_spec (dst.drop n) (src.take si) (src.drop si)
    (by simp only [List.length_drop]; omega)
  rw [List.take_append_drop, hpre] at hdq
  rw [hpre, hrest] at hag
  have htot : si + (src.length - si) = src.length := by omega
  rw [htot] at hag
  simp only [List.length_drop] at hlen
  generalize base64.quantumOut (base64.scanStripped
    (base64.stripNewlines (src.drop si)) 0 [0, 0, 0, 0]) = out at hdq hag hlen ⊢
  refine ⟨dst.take n ++ (out ++ (dst.drop n).drop out.length), nsi, err, ?_, ?_, by omega, ?_,
    hag⟩
  · simp only [base64.quantumStep, slice_from dst n hn, bind, Except.bind, hdq]
    rfl
  · simp only [List.length_append, List.length_take, List.length_drop]
    omega
  · rw [← List.append_assoc]
    have hl : (dst.take n ++ out).length = n + out.length := by
      simp only [List.length_append, List.length_take]; omega
    rw [← hl, List.take_left']
    rfl

theorem decodeStripped_nil : base64.decodeStripped (base64.stripNewlines []) = ([], true) := by
  simp [base64.stripNewlines, base64.decodeStripped]

theorem quantumStep_inv (src : List Nat) (cap : Nat) (dst : List Nat) (si n : Nat)
    (h : base64.LoopInv src cap dst si n) (hlt : si < src.length) :
    ∃ dst2 nsi n2 err,
      base64.quantumStep base64.StdEncoding dst src si n = Except.ok (dst2, nsi, n2, err) ∧
      (err = none → base64.LoopInv src cap dst2 nsi n2 ∧ si < nsi) ∧
      (err ≠ none → base64.DecodePost src cap dst2 n2 err) := by
  obtain ⟨hcap, hsi, hroom, hsem⟩ := h
  obtain ⟨dst2, nsi, err, hq, hlen2, hn2, htake, hag⟩ :=
    quantumStep_spec dst src si n hsi (by omega) (by intro h4; omega)
  rw [decodeStripped_unfold (base64.stripNewlines (src.drop si))] at hsem
  generalize base64.scanStripped (base64.stripNewlines (src.drop si)) 0 [0, 0, 0, 0] = q at *
  refine ⟨dst2, nsi, _, err, hq, ?_, ?_⟩
  · intro herr
    cases q with
    | eof =>
      obtain ⟨rfl, -⟩ := hag
      refine ⟨⟨by omega, Nat.le_refl _, by omega, ?_⟩, hlt⟩
      rw [hsem, htake, List.drop_length, decodeStripped_nil]
      simp [base64.decodeUnfold, base64.quantumOut]
    | bad => exact absurd herr hag
    | full d tl =>
      obtain ⟨-, k, rfl, hk4, hk, hs⟩ := hag
      simp only [List.length_drop] at hk
      refine ⟨⟨by omega, by omega, ?_, ?_⟩, by omega⟩
      · have hl : (base64.quantumOut (base64.Quantum.full d tl)).length = 3 := by
          simp [base64.quantumOut, base64.quantumBytes]
        rw [hl, hlen2]
        omega
      · rw [hsem, htake, ← List.drop_drop, hs]
        simp [base64.decodeUnfold]
    | pad d dlen g =>
      obtain ⟨hg1, hg2⟩ := hag
      have hg := hg1.mp herr
      have hnsi := hg2 hg
      subst hnsi
      refine ⟨⟨by omega, Nat.le_refl _, by omega, ?_⟩, hlt⟩
      rw [hsem, htake, List.drop_length, decodeStripped_nil]
      simp [base64.decodeUnfold, hg]
  · intro herr
    refine ⟨by omega, by omega, ?_, ?_⟩
    · cases q with
      | eof => exact absurd hag.2 herr
      | bad => rw [hsem, htake]; rfl
      | full d tl => exact absurd hag.1 herr
      | pad d dlen g => rw [hsem, htake]; rfl
    · cases q with
      | eof => exact absurd hag.2 herr
      | bad => simp [hsem, base64.decodeUnfold, herr]
      | full d tl => exact absurd hag.1 herr
      | pad d dlen g =>
        have hg : g = true := by
          cases g with
          | true => rfl
          | false => exact absurd (hag.1.mpr rfl) herr
        simp [hsem, base64.decodeUnfold, herr, hg]

theorem loopTail_spec (src : List Nat) (cap : Nat) :
    ∀ (fuel : Nat) (dst : List Nat) (si n : Nat),
      base64.LoopInv src cap dst si n → src.length - si + 1 ≤ fuel →
      ∃ flow, base64.loopTail base64.StdEncoding src fuel dst si n = Except.ok flow ∧
        base64.FlowDone src cap flow := by
  intro fuel
  induction fuel with
  | zero => intro dst si n _ hf; omega
  | succ f ih =>
    intro dst si n hinv hf
    by_cases hlt : si < src.length
    · obtain ⟨dst2, nsi, n2, err, hq, hok, hbad⟩ := quantumStep_inv src cap dst si n hinv hlt
      simp only [base64.loopTail, hlt, if_true, hq, bind, Except.bind]
      cases err with
      | none =>
        obtain ⟨hinv2, hprog⟩ := hok rfl
        simpa using ih dst2 nsi n2 hinv2 (by omega)
      | some off =>
        refine ⟨base64.Flow.ret dst2 n2 (some off), by simp [pure, Except.pure], ?_⟩
        exact ⟨by simp, hbad (by simp)⟩
    · simp only [base64.loopTail, hlt, if_false]
      refine ⟨base64.Flow.next dst si n, rfl, ?_⟩
      obtain ⟨hcap, hsi, hroom, hsem⟩ := hinv
      have he : si = src.length := by omega
      subst he
      rw [List.drop_length, decodeStripped_nil] at hsem
      exact ⟨hcap, by omega, by rw [hsem]; simp, by rw [hsem]; simp⟩

theorem slice_window (src : List Nat) (si m : Nat) (h : si + m ≤ src.length) :
    slice src si (si + m) = Except.ok ((src.drop si).take m) := by
  have h1 : si ≤ si + m := Nat.le_add_right _ _
  simp only [slice, h1, h, and_self, if_true, List.take_drop]
  rfl

theorem exists_cons4 (l : List Nat) (h : 4 ≤ l.length) :
    ∃ x0 x1 x2 x3 tl, l = x0 :: x1 :: x2 :: x3 :: tl := by
  match l, h with
  | x0 :: x1 :: x2 :: x3 :: tl, _ => exact ⟨x0, x1, x2, x3, tl, rfl⟩

theorem exists_cons8 (l : List Nat) (h : 8 ≤ l.length) :
    ∃ x0 x1 x2 x3 x4 x5 x6 x7 tl, l = x0 :: x1 :: x2 :: x3 :: x4 :: x5 :: x6 :: x7 :: tl := by
  match l, h with
  | x0 :: x1 :: x2 :: x3 :: x4 :: x5 :: x6 :: x7 :: tl, _ =>
    exact ⟨x0, x1, x2, x3, x4, x5, x6, x7, tl, rfl⟩

theorem PutUint32_spec (x0 x1 x2 x3 : Nat) (xs : List Nat) (v : Nat) :
    base64.PutUint32 (x0 :: x1 :: x2 :: x3 :: xs) v
      = Except.ok ((v >>> 24) % 256 :: (v >>> 16) % 256 :: (v >>> 8) % 256 :: v % 256 :: xs) := by
  simp [base64.PutUint32, index, assign, bind, Except.bind, pure, Except.pure]

theorem PutUint64_spec (x0 x1 x2 x3 x4 x5 x6 x7 : Nat) (xs : List Nat) (v : Nat) :
    base64.PutUint64 (x0 :: x1 :: x2 :: x3 :: x4 :: x5 :: x6 :: x7 :: xs) v
      = Except.ok ((v >>> 56) % 256 :: (v >>> 48) % 256 :: (v >>> 40) % 256 ::
          (v >>> 32) % 256 :: (v >>> 24) % 256 :: (v >>> 16) % 256 :: (v >>> 8) % 256 ::
          v % 256 :: xs) := by
  simp [base64.PutUint64, index, assign, bind, Except.bind, pure, Except.pure]

theorem valid_not_newline (c : Nat) (h : base64.StdEncoding.decodeMap c ≠ 255) :
    ¬ (c = 10 ∨ c = 13) := by
  rintro (e | e)
  · exact h (e ▸ decodeMap_lf)
  · exact h (e ▸ decodeMap_cr)

theorem decodeStripped_full (c0 c1 c2 c3 : Nat) (rest : List Nat)
    (h0 : base64.StdEncoding.decodeMap c0 ≠ 255) (h1 : base64.StdEncoding.decodeMap c1 ≠ 255)
    (h2 : base64.StdEncoding.decodeMap c2 ≠ 255) (h3 : base64.StdEncoding.decodeMap c3 ≠ 255) :
    base64.decodeStripped (base64.stripNewlines (c0 :: c1 :: c2 :: c3 :: rest))
      = (base64.quantumBytes (base64.StdEncoding.decodeMap c0) (base64.StdEncoding.decodeMap c1)
            (base64.StdEncoding.decodeMap c2) (base64.StdEncoding.decodeMap c3) ++
          (base64.decodeStripped (base64.stripNewlines rest)).1,
         (base64.decodeStripped (base64.stripNewlines rest)).2) := by
  rw [strip_cons_other c0 _ (valid_not_newline c0 h0),
    strip_cons_other c1 _ (valid_not_newline c1 h1),
    strip_cons_other c2 _ (valid_not_newline c2 h2),
    strip_cons_other c3 _ (valid_not_newline c3 h3)]
  simp [base64.decodeStripped, h0, h1, h2, h3]

theorem valid_lt (c : Nat) (h : base64.StdEncoding.decodeMap c ≠ 255) :
    base64.StdEncoding.decodeMap c < 64 := by
  rcases decodeMap_range c with h1 | h1
  · exact h1
  · exact absurd h1 h

theorem fast32_inv (src : List Nat) (cap : Nat) (dst : List Nat) (si n : Nat)
    (c0 c1 c2 c3 : Nat) (rest : List Nat) (x0 x1 x2 x3 : Nat) (xs : List Nat)
    (h : base64.LoopInv src cap dst si n)
    (hsrc : src.drop si = c0 :: c1 :: c2 :: c3 :: rest)
    (hdst : dst.drop n = x0 :: x1 :: x2 :: x3 :: xs)
    (h0 : base64.StdEncoding.decodeMap c0 ≠ 255) (h1 : base64.StdEncoding.decodeMap c1 ≠ 255)
    (h2 : base64.StdEncoding.decodeMap c2 ≠ 255) (h3 : base64.StdEncoding.decodeMap c3 ≠ 255)
    (v : Nat)
    (hv : v = (base64.assemble32 (base64.StdEncoding.decodeMap c0)
      (base64.StdEncoding.decodeMap c1) (base64.StdEncoding.decodeMap c2)
      (base64.StdEncoding.decodeMap c3)).1) :
    base64.LoopInv src cap
      (dst.take n ++ ((v >>> 24) % 256 :: (v >>> 16) % 256 :: (v >>> 8) % 256 :: v % 256 :: xs))
      (si + 4) (n + 3) := by
  obtain ⟨hcap, hsi, hroom, hsem⟩ := h
  have hlen_src : src.length - si = rest.length + 4 := by
    have := congrArg List.length hsrc
    simpa using this
  have hlen_dst : dst.length - n = xs.length + 4 := by
    have := congrArg List.length hdst
    simpa using this
  have hrest : src.drop (si + 4) = rest := by
    rw [← List.drop_drop, hsrc]
    rfl
  refine ⟨?_, by omega, ?_, ?_⟩
  · simp only [List.length_append, List.length_take, List.length_cons]
    omega
  · simp only [List.length_append, List.length_take, List.length_cons]
    omega
  · rw [hsem, hsrc, decodeStripped_full c0 c1 c2 c3 rest h0 h1 h2 h3, hrest]
    have hb := fast32_bytes _ _ _ _ (valid_lt c0 h0) (valid_lt c1 h1) (valid_lt c2 h2)
      (valid_lt c3 h3)
    rw [← hv] at hb
    rw [← hb]
    have hl : (dst.take n).length = n := by
      simp only [List.length_take]; omega
    have e : n + 3 = (dst.take n).length + 3 := by omega
    rw [e, List.take_append]
    simp

theorem loop32_spec (src : List Nat) (cap : Nat) :
    ∀ (fuel : Nat) (dst : List Nat) (si n : Nat),
      base64.LoopInv src cap dst si n → src.length - si + 1 ≤ fuel →
      ∃ flow, base64.loop32 base64.StdEncoding src fuel dst si n = Except.ok flow ∧
        base64.FlowGoesOn src cap flow := by
  intro fuel
  induction fuel with
  | zero => intro dst si n _ hf; omega
  | succ f ih =>
    intro dst si n hinv hf
    by_cases hcond : src.length - si ≥ 4 ∧ dst.length - n ≥ 4
    · obtain ⟨c0, c1, c2, c3, rest, hsrc⟩ := exists_cons4 (src.drop si) (by simp; omega)
      obtain ⟨x0, x1, x2, x3, xs, hdst⟩ := exists_cons4 (dst.drop n) (by simp; omega)
      have hsl := slice_window src si 4 (by omega)
      rw [hsrc] at hsl
      simp only [base64.loop32, hcond, and_self, if_true, hsl, bind, Except.bind,
        List.take, List.getD_cons_zero, List.getD_cons_succ]
      by_cases hok : (base64.assemble32 (base64.StdEncoding.decodeMap c0)
          (base64.StdEncoding.decodeMap c1) (base64.StdEncoding.decodeMap c2)
          (base64.StdEncoding.decodeMap c3)).2 = true
      · obtain ⟨h0, h1, h2, h3⟩ := (assemble32_ok _ _ _ _ (decodeMap_range c0)
          (decodeMap_range c1) (decodeMap_range c2) (decodeMap_range c3)).mp hok
        have hinv2 := fast32_inv src cap dst si n c0 c1 c2 c3 rest x0 x1 x2 x3 xs hinv hsrc hdst
          h0 h1 h2 h3 _ rfl
        simp only [hok, if_true, slice_from dst n (by omega), hdst, PutUint32_spec]
        exact ih _ _ _ hinv2 (by omega)
      · obtain ⟨dst2, nsi, n2, err, hq, hgo, hbad⟩ :=
          quantumStep_inv src cap dst si n hinv (by omega)
        simp only [hok, hq]
        cases err with
        | none =>
          obtain ⟨hinv2, hprog⟩ := hgo rfl
          simpa using ih dst2 nsi n2 hinv2 (by omega)
        | some off =>
          refine ⟨base64.Flow.ret dst2 n2 (some off), by simp [pure, Except.pure], ?_⟩
          exact ⟨by simp, hbad (by simp)⟩
    · simp only [base64.loop32, hcond, if_false]
      exact ⟨base64.Flow.next dst si n, rfl, hinv⟩

theorem fast64_inv (src : List Nat) (cap : Nat) (dst : List Nat) (si n : Nat)
    (c0 c1 c2 c3 c4 c5 c6 c7 : Nat) (rest : List Nat) (x0 x1 x2 x3 x4 x5 x6 x7 : Nat)
    (xs : List Nat)
    (h : base64.LoopInv src cap dst si n)
    (hsrc : src.drop si = c0 :: c1 :: c2 :: c3 :: c4 :: c5 :: c6 :: c7 :: rest)
    (hdst : dst.drop n = x0 :: x1 :: x2 :: x3 :: x4 :: x5 :: x6 :: x7 :: xs)
    (h0 : base64.StdEncoding.decodeMap c0 ≠ 255) (h1 : base64.StdEncoding.decodeMap c1 ≠ 255)
    (h2 : base64.StdEncoding.decodeMap c2 ≠ 255) (h3 : base64.StdEncoding.decodeMap c3 ≠ 255)
    (h4 : base64.StdEncoding.decodeMap c4 ≠ 255) (h5 : base64.StdEncoding.decodeMap c5 ≠ 255)
    (h6 : base64.StdEncoding.decodeMap c6 ≠ 255) (h7 : base64.StdEncoding.decodeMap c7 ≠ 255)
    (v : Nat)
    (hv : v = (base64.assemble64 (base64.StdEncoding.decodeMap c0)
      (base64.StdEncoding.decodeMap c1) (base64.StdEncoding.decodeMap c2)
      (base64.StdEncoding.decodeMap c3) (base64.StdEncoding.decodeMap c4)
      (base64.StdEncoding.decodeMap c5) (base64.StdEncoding.decodeMap c6)
      (base64.StdEncoding.decodeMap c7)).1) :
    base64.LoopInv src cap
      (dst.take n ++ ((v >>> 56) % 256 :: (v >>> 48) % 256 :: (v >>> 40) % 256 ::
          (v >>> 32) % 256 :: (v >>> 24) % 256 :: (v >>> 16) % 256 :: (v >>> 8) % 256 ::
          v % 256 :: xs))
      (si + 8) (n + 6) := by
  obtain ⟨hcap, hsi, hroom, hsem⟩ := h
  have hlen_src : src.length - si = rest.length + 8 := by
    have := congrArg List.length hsrc
    simpa using this
  have hlen_dst : dst.length - n = xs.length + 8 := by
    have := congrArg List.length hdst
    simpa using this
  have hrest : src.drop (si + 8) = rest := by
    rw [← List.drop_drop, hsrc]
    rfl
  refine ⟨?_, by omega, ?_, ?_⟩
  · simp only [List.length_append, List.length_take, List.length_cons]
    omega
  · simp only [List.length_append, List.length_take, List.length_cons]
    omega
  · rw [hsem, hsrc, decodeStripped_full c0 c1 c2 c3 _ h0 h1 h2 h3,
      decodeStripped_full c4 c5 c6 c7 rest h4 h5 h6 h7, hrest]
    have hb := fast64_bytes _ _ _ _ _ _ _ _ (valid_lt c0 h0) (valid_lt c1 h1) (valid_lt c2 h2)
      (valid_lt c3 h3) (valid_lt c4 h4) (valid_lt c5 h5) (valid_lt c6 h6) (valid_lt c7 h7)
    rw [← hv] at hb
    simp only [← List.append_assoc (base64.quantumBytes _ _ _ _)]
    rw [← hb]
    have hl : (dst.take n).length = n := by
      simp only [List.length_take]; omega
    have e : n + 6 = (dst.take n).length + 6 := by omega
    rw [e, List.take_append]
    simp

theorem loop64_spec (IntSize : Nat) (src : List Nat) (cap : Nat) :
    ∀ (fuel : Nat) (dst : List Nat) (si n : Nat),
      base64.LoopInv src cap dst si n → src.length - si + 1 ≤ fuel →
      ∃ flow, base64.loop64 base64.StdEncoding IntSize src fuel dst si n = Except.ok flow ∧
        base64.FlowGoesOn src cap flow := by
  intro fuel
  induction fuel with
  | zero => intro dst si n _ hf; omega
  | succ f ih =>
    intro dst si n hinv hf
    by_cases hcond : IntSize ≥ 64 ∧ src.length - si ≥ 8 ∧ dst.length - n ≥ 8
    · obtain ⟨c0, c1, c2, c3, c4, c5, c6, c7, rest, hsrc⟩ :=
        exists_cons8 (src.drop si) (by simp; omega)
      obtain ⟨x0, x1, x2, x3, x4, x5, x6, x7, xs, hdst⟩ :=
        exists_cons8 (dst.drop n) (by simp; omega)
      have hsl := slice_window src si 8 (by omega)
      rw [hsrc] at hsl
      simp only [base64.loop64, hcond, and_self, if_true, hsl, bind, Except.bind,
        List.take, List.getD_cons_zero, List.getD_cons_succ]
      by_cases hok : (base64.assemble64 (base64.StdEncoding.decodeMap c0)
          (base64.StdEncoding.decodeMap c1) (base64.StdEncoding.decodeMap c2)
          (base64.StdEncoding.decodeMap c3) (base64.StdEncoding.decodeMap c4)
          (base64.StdEncoding.decodeMap c5) (base64.StdEncoding.decodeMap c6)
          (base64.StdEncoding.decodeMap c7)).2 = true
      · obtain ⟨h0, h1, h2, h3, h4, h5, h6, h7⟩ := (assemble64_ok _ _ _ _ _ _ _ _
          (decodeMap_range c0) (decodeMap_range c1) (decodeMap_range c2) (decodeMap_range c3)
          (decodeMap_range c4) (decodeMap_range c5) (decodeMap_range c6)
          (decodeMap_range c7)).mp hok
        have hinv2 := fast64_inv src cap dst si n c0 c1 c2 c3 c4 c5 c6 c7 rest
          x0 x1 x2 x3 x4 x5 x6 x7 xs hinv hsrc hdst h0 h1 h2 h3 h4 h5 h6 h7 _ rfl
        simp only [hok, if_true, slice_from dst n (by omega), hdst, PutUint64_spec]
        exact ih _ _ _ hinv2 (by omega)
      · obtain ⟨dst2, nsi, n2, err, hq, hgo, hbad⟩ :=
          quantumStep_inv src cap dst si n hinv (by omega)
        simp only [hok, hq]
        cases err with
        | none =>
          obtain ⟨hinv2, hprog⟩ := hgo rfl
          simpa using ih dst2 nsi n2 hinv2 (by omega)
        | some off =>
          refine ⟨base64.Flow.ret dst2 n2 (some off), by simp [pure, Except.pure], ?_⟩
          exact ⟨by simp, hbad (by simp)⟩
    · simp only [base64.loop64, hcond, if_false]
      exact ⟨base64.Flow.next dst si n, rfl, hinv⟩

theorem loopInv_init (src : List Nat) :
    base64.LoopInv src (src.length / 4 * 3) (make (src.length / 4 * 3)) 0 0 := by
  refine ⟨by simp [make], Nat.zero_le _, ?_, ?_⟩
  · simp only [make, List.length_replicate]
    omega
  · simp

theorem Decode_spec (IntSize : Nat) (src : List Nat) :
    ∃ dst n err,
      base64.Decode base64.StdEncoding IntSize
          (make (base64.DecodedLen base64.StdEncoding src.length)) src
        = Except.ok (dst, n, err) ∧
      base64.DecodePost src (base64.DecodedLen base64.StdEncoding src.length) dst n err := by
  have hdl : base64.DecodedLen base64.StdEncoding src.length = src.length / 4 * 3 := by
    have hp : ¬ ((61 : Int) = base64.NoPadding) := by decide
    simp [base64.DecodedLen, padChar_std, hp]
  rw [hdl]
  by_cases h0 : src.length = 0
  · have hs : src = [] := List.length_eq_zero.mp h0
    subst hs
    refine ⟨make 0, 0, none, by simp [base64.Decode, pure, Except.pure], ?_⟩
    simp [base64.DecodePost, make, base64.stripNewlines, base64.decodeStripped]
  · obtain ⟨f1, hf1, hg1⟩ := loop64_spec IntSize src _ (src.length + 1) _ 0 0
      (loopInv_init src) (by omega)
    simp only [base64.Decode, h0, if_false, hf1, bind, Except.bind]
    cases f1 with
    | ret dst n err => exact ⟨dst, n, err, rfl, hg1.2⟩
    | next dst si n =>
      obtain ⟨f2, hf2, hg2⟩ := loop32_spec src _ (src.length + 1) dst si n hg1 (by omega)
      simp only [hf2]
      cases f2 with
      | ret dst n err => exact ⟨dst, n, err, rfl, hg2.2⟩
      | next dst si n =>
        obtain ⟨f3, hf3, hg3⟩ := loopTail_spec src _ (src.length + 1) dst si n hg2 (by omega)
        simp only [hf3]
        cases f3 with
        | ret dst n err => exact ⟨dst, n, err, rfl, hg3.2⟩
        | next dst si n => exact ⟨dst, n, none, rfl, hg3⟩

theorem buildDecodeMap_not_mem (cs : List Nat) :
    ∀ (i : Nat) (m : Nat → Nat) (x : Nat), x ∉ cs → base64.buildDecodeMap cs i m x = m x := by
  induction cs with
  | nil => intro i m x _; rfl
  | cons c cs ih =>
    intro i m x hx
    simp only [List.mem_cons, not_or] at hx
    simp only [base64.buildDecodeMap]
    rw [ih _ _ _ hx.2]
    simp [hx.1]

theorem buildDecodeMap_mem (cs : List Nat) :
    ∀ (i : Nat) (m : Nat → Nat) (x : Nat), x ∈ cs →
      ∃ k, k < cs.length ∧ base64.buildDecodeMap cs i m x = (i + k) % 256 := by
  induction cs with
  | nil => intro i m x hx; simp at hx
  | cons c cs ih =>
    intro i m x hx
    simp only [base64.buildDecodeMap]
    by_cases hmem : x ∈ cs
    · obtain ⟨k, hk, h⟩ := ih (i + 1) (fun y => if y = c then i % 256 else m y) x hmem
      refine ⟨k + 1, by simp; omega, ?_⟩
      rw [h]
      congr 1
      omega
    · have hxc : x = c := by
        rcases List.mem_cons.mp hx with h | h
        · exact h
        · exact absurd h hmem
      refine ⟨0, by simp, ?_⟩
      rw [buildDecodeMap_not_mem cs _ _ x hmem]
      simp [hxc]

theorem isAlphabet_iff (c : Nat) :
    base64.isAlphabet c = true ↔ base64.StdEncoding.decodeMap c ≠ 255 := by
  have hlen : base64.encodeStd.length = 64 := by decide
  simp only [base64.isAlphabet, decide_eq_true_eq]
  constructor
  · intro h
    obtain ⟨k, hk, hv⟩ := buildDecodeMap_mem base64.encodeStd 0 (fun _ => 0xff) c h
    show base64.buildDecodeMap base64.encodeStd 0 (fun _ => 0xff) c ≠ 255
    rw [hv]
    rw [hlen] at hk
    omega
  · intro h
    by_contra hmem
    exact h (buildDecodeMap_not_mem base64.encodeStd 0 (fun _ => 0xff) c hmem)

theorem accept_iff_wellFormed (s : List Nat) :
    (base64.decodeStripped s).2 = true ↔ base64.wellFormed s = true := by
  have hpad := decodeMap_pad
  induction s using base64.wellFormed.induct with
  | case1 => simp [base64.decodeStripped, base64.wellFormed]
  | case2 a b c d tl ih =>
    have ha := isAlphabet_iff a
    have hb := isAlphabet_iff b
    have hc := isAlphabet_iff c
    have hd := isAlphabet_iff d
    simp only [base64.decodeStripped, base64.wellFormed]
    by_cases va : base64.StdEncoding.decodeMap a = 255 <;>
    by_cases vb : base64.StdEncoding.decodeMap b = 255 <;>
    by_cases vc : base64.StdEncoding.decodeMap c = 255 <;>
    by_cases vd : base64.StdEncoding.decodeMap d = 255 <;>
    by_cases pc : c = 61 <;> by_cases pd : d = 61 <;>
    simp_all
  | case3 s h1 h2 =>
    match s, h1, h2 with
    | [], h1, _ => exact absurd rfl h1
    | [a], _, _ => simp [base64.decodeStripped, base64.wellFormed]
    | [a, b], _, _ => simp [base64.decodeStripped, base64.wellFormed]
    | [a, b, c], _, _ => simp [base64.decodeStripped, base64.wellFormed]
    | a :: b :: c :: d :: tl, _, h2 => exact absurd rfl (h2 a b c d tl)

set_option maxRecDepth 100000 in
theorem decodeMap_stdChar : ∀ v, v < 64 →
    base64.StdEncoding.decodeMap (base64.stdChar v) = v := by decide

theorem stdChar_valid (v : Nat) (h : v < 64) :
    base64.StdEncoding.decodeMap (base64.stdChar v) ≠ 255 := by
  rw [decodeMap_stdChar v h]; omega

theorem quantumBytes_sextets (x y z : Nat) (hx : x < 256) (hy : y < 256) (hz : z < 256) :
    base64.quantumBytes (x / 4) (x % 4 * 16 + y / 16) (y % 16 * 4 + z / 64) (z % 64)
      = [x, y, z] := by
  rw [quantumBytes_val _ _ _ _ (by omega) (by omega) (by omega) (by omega)]
  simp only [List.cons.injEq, and_true]
  refine ⟨?_, ?_, ?_⟩ <;> omega

theorem decodeStripped_stdEncode (bs : List Nat) (h : ∀ b ∈ bs, b < 256) :
    base64.decodeStripped (base64.stripNewlines (base64.stdEncode bs)) = (bs, true) := by
  have hpad := decodeMap_pad
  have hp : ¬ ((61 : Nat) = 10 ∨ (61 : Nat) = 13) := by decide
  induction bs using base64.stdEncode.induct with
  | case1 => simp [base64.stdEncode, base64.stripNewlines, base64.decodeStripped]
  | case2 x =>
    have hx : x < 256 := h x (by simp)
    have v0 := stdChar_valid (x / 4) (by omega)
    have v1 := stdChar_valid (x % 4 * 16) (by omega)
    have hb := quantumBytes_val (x / 4) (x % 4 * 16) 0 0 (by omega) (by omega) (by omega)
      (by omega)
    simp only [base64.stdEncode]
    rw [strip_cons_other _ _ (valid_not_newline _ v0),
      strip_cons_other _ _ (valid_not_newline _ v1), strip_cons_other _ _ hp,
      strip_cons_other _ _ hp]
    simp only [base64.stripNewlines, List.filter_nil, base64.decodeStripped, ne_eq, v0, v1,
      not_false_eq_true, and_self, if_true, hpad, not_true_eq_false, if_false,
      decodeMap_stdChar (x / 4) (by omega), decodeMap_stdChar (x % 4 * 16) (by omega), hb,
      List.isEmpty_nil]
    simp only [List.take]
    rw [if_pos (by omega)]
    simp only [Prod.mk.injEq, List.cons.injEq, and_true]
    omega
  | case3 x y =>
    have hx : x < 256 := h x (by simp)
    have hy : y < 256 := h y (by simp)
    have v0 := stdChar_valid (x / 4) (by omega)
    have v1 := stdChar_valid (x % 4 * 16 + y / 16) (by omega)
    have v2 := stdChar_valid (y % 16 * 4) (by omega)
    have hb := quantumBytes_val (x / 4) (x % 4 * 16 + y / 16) (y % 16 * 4) 0 (by omega)
      (by omega) (by omega) (by omega)
    simp only [base64.stdEncode]
    rw [strip_cons_other _ _ (valid_not_newline _ v0),
      strip_cons_other _ _ (valid_not_newline _ v1),
      strip_cons_other _ _ (valid_not_newline _ v2), strip_cons_other _ _ hp]
    simp only [base64.stripNewlines, List.filter_nil, base64.decodeStripped, ne_eq, v0, v1, v2,
      not_false_eq_true, and_self, if_true, hpad, not_true_eq_false, if_false,
      decodeMap_stdChar (x / 4) (by omega), decodeMap_stdChar (x % 4 * 16 + y / 16) (by omega),
      decodeMap_stdChar (y % 16 * 4) (by omega), hb, List.isEmpty_nil]
    simp only [List.take]
    rw [if_pos (by omega), if_pos (by omega)]
    simp only [Prod.mk.injEq, List.cons.injEq, and_true]
    omega
  | case4 x y z rest ih =>
    have hx : x < 256 := h x (by simp)
    have hy : y < 256 := h y (by simp)
    have hz : z < 256 := h z (by simp)
    have v0 := stdChar_valid (x / 4) (by omega)
    have v1 := stdChar_valid (x % 4 * 16 + y / 16) (by omega)
    have v2 := stdChar_valid (y % 16 * 4 + z / 64) (by omega)
    have v3 := stdChar_valid (z % 64) (by omega)
    simp only [base64.stdEncode]
    rw [decodeStripped_full _ _ _ _ _ v0 v1 v2 v3,
      ih (fun b hb => h b (by simp [hb])),
      decodeMap_stdChar (x / 4) (by omega), decodeMap_stdChar (x % 4 * 16 + y / 16) (by omega),
      decodeMap_stdChar (y % 16 * 4 + z / 64) (by omega), decodeMap_stdChar (z % 64) (by omega),
      quantumBytes_sextets x y z hx hy hz]
    rfl

theorem getter_call_eq {σ ε : Type} (g : Getter) (IntSize : Nat) (s : Secrets σ ε) (w : σ) :
    g.call IntSize s w = s.getSecret IntSize g.secretId w := by
  cases g <;> rfl

theorem getSecret_of_error {σ ε : Type} (IntSize : Nat) (s : Secrets σ ε) (secretKey : String)
    (w w2 : σ) (e : GoError ε)
    (hcall : s.svc.GetSecretValue (currentRequest secretKey) w = (Except.error e, w2)) :
    s.getSecret IntSize secretKey w = Except.ok (([], some e), w2) := by
  simp only [currentRequest] at hcall
  simp only [Secrets.getSecret, aws.String, hcall]
  rfl

theorem getSecret_of_plain {σ ε : Type} (IntSize : Nat) (s : Secrets σ ε) (secretKey : String)
    (w w2 : σ) (r : GetSecretValueOutput) (S : List Nat)
    (hcall : s.svc.GetSecretValue (currentRequest secretKey) w = (Except.ok r, w2))
    (hS : r.SecretString = some S) :
    s.getSecret IntSize secretKey w = Except.ok ((S, none), w2) := by
  simp only [currentRequest] at hcall
  simp only [Secrets.getSecret, aws.String, hcall, hS]
  rfl

theorem slice_upto (dst : List Nat) (n : Nat) (hn : n ≤ dst.length) :
    slice dst 0 n = Except.ok (dst.take n) := by
  simp [slice, hn, pure, Except.pure]

theorem getSecret_of_binary {σ ε : Type} (IntSize : Nat) (s : Secrets σ ε) (secretKey : String)
    (w w2 : σ) (r : GetSecretValueOutput)
    (hcall : s.svc.GetSecretValue (currentRequest secretKey) w = (Except.ok r, w2))
    (hnil : r.SecretString = none) :
    ∃ dst n err,
      base64.Decode base64.StdEncoding IntSize
          (make (base64.DecodedLen base64.StdEncoding (elems r.SecretBinary).length))
          (elems r.SecretBinary) = Except.ok (dst, n, err) ∧
      base64.DecodePost (elems r.SecretBinary)
        (base64.DecodedLen base64.StdEncoding (elems r.SecretBinary).length) dst n err ∧
      s.getSecret IntSize secretKey w
        = Except.ok ((match err with
            | none => (dst.take n, none)
            | some off => ([], some (GoError.corruptInput off))), w2) := by
  obtain ⟨dst, n, err, hdec, hpost⟩ := Decode_spec IntSize (elems r.SecretBinary)
  refine ⟨dst, n, err, hdec, hpost, ?_⟩
  simp only [currentRequest] at hcall
  simp only [Secrets.getSecret, aws.String, hcall, hnil, hdec, bind, Except.bind]
  cases err with
  | none =>
    simp only [slice_upto dst n hpost.2.1]
    rfl
  | some off => rfl

theorem getSecret_total {σ ε : Type} (IntSize : Nat) (s : Secrets σ ε) (secretKey : String)
    (w : σ) :
    ∃ res, s.getSecret IntSize secretKey w
      = Except.ok (res, (s.svc.GetSecretValue (currentRequest secretKey) w).2) := by
  cases hcall : s.svc.GetSecretValue (currentRequest secretKey) w with
  | mk out w2 =>
    cases out with
    | error e => exact ⟨_, getSecret_of_error IntSize s secretKey w w2 e hcall⟩
    | ok r =>
      cases hS : r.SecretString with
      | some S => exact ⟨_, getSecret_of_plain IntSize s secretKey w w2 r S hcall hS⟩
      | none =>
        obtain ⟨dst, n, err, -, -, h⟩ := getSecret_of_binary IntSize s secretKey w w2 r hcall hS
        exact ⟨_, h⟩

/-! ## Properties of the accessor -/

/-- C1: when the store's successful response carries the plain-text form
equal to `S` (any string, the empty one included), `getSecret` returns exactly
`S` with a nil error, and so does each of the six getters for its own
identifier. -/
theorem plaintext_returned_unchanged {σ ε : Type} (IntSize : Nat) (s : Secrets σ ε)
    (secretKey : String) (w w2 : σ) (r : GetSecretValueOutput) (S : List Nat)
    (hcall : s.svc.GetSecretValue (currentRequest secretKey) w = (Except.ok r, w2))
    (hS : r.SecretString = some S) :
    s.getSecret IntSize secretKey w = Except.ok ((S, none), w2) ∧
    ∀ g : Getter, g.secretId = secretKey → g.call IntSize s w = Except.ok ((S, none), w2) := by
  refine ⟨getSecret_of_plain IntSize s secretKey w w2 r S hcall hS, ?_⟩
  intro g hg
  rw [getter_call_eq, hg]
  exact getSecret_of_plain IntSize s secretKey w w2 r S hcall hS

/-- Scenario of the spec for C1: the store holds `SSOSyncV2Region` as the
plain text `us-east-1`, and `Region()` returns it with no error. -/
theorem plaintext_returned_unchanged_witness :
    (storeSecrets String).svc.GetSecretValue (currentRequest "SSOSyncV2Region") scenarioStore
      = (Except.ok { SecretString := some (utf8 "us-east-1"), SecretBinary := none },
          scenarioStore) ∧
    ((storeSecrets String).getSecret 64 "SSOSyncV2Region" scenarioStore
        = Except.ok ((utf8 "us-east-1", none), scenarioStore) ∧
      ∀ g : Getter, g.secretId = "SSOSyncV2Region" →
        g.call 64 (storeSecrets String) scenarioStore
          = Except.ok ((utf8 "us-east-1", none), scenarioStore)) :=
  ⟨rfl, plaintext_returned_unchanged 64 (storeSecrets String) "SSOSyncV2Region" scenarioStore
    scenarioStore _ (utf8 "us-east-1") rfl rfl⟩

theorem utf8_lt (T : String) : ∀ b ∈ utf8 T, b < 256 := by
  intro b hb
  simp only [utf8, List.mem_map] at hb
  obtain ⟨x, -, rfl⟩ := hb
  exact x.val.isLt

/-- C2: when the successful response has no plain-text form and its binary
payload is the standard padded base64 encoding of the bytes of `S`,
`getSecret` returns exactly `S` with a nil error: for every sequence of bytes
`S`, and so for the UTF-8 bytes of every string `T`. -/
theorem binary_roundtrip {σ ε : Type} (IntSize : Nat) (s : Secrets σ ε)
    (secretKey : String) (w w2 : σ) (r : GetSecretValueOutput)
    (hcall : s.svc.GetSecretValue (currentRequest secretKey) w = (Except.ok r, w2))
    (hnil : r.SecretString = none) :
    (∀ S : List Nat, (∀ b ∈ S, b < 256) → elems r.SecretBinary = base64.stdEncode S →
      s.getSecret IntSize secretKey w = Except.ok ((S, none), w2)) ∧
    (∀ T : String, elems r.SecretBinary = base64.stdEncode (utf8 T) →
      s.getSecret IntSize secretKey w = Except.ok ((utf8 T, none), w2)) := by
  have main : ∀ S : List Nat, (∀ b ∈ S, b < 256) →
      elems r.SecretBinary = base64.stdEncode S →
      s.getSecret IntSize secretKey w = Except.ok ((S, none), w2) := by
    intro S hbytes hbin
    obtain ⟨dst, n, err, -, hpost, h⟩ :=
      getSecret_of_binary IntSize s secretKey w w2 r hcall hnil
    obtain ⟨-, -, htake, herr⟩ := hpost
    rw [hbin, decodeStripped_stdEncode S hbytes] at htake herr
    have he : err = none := herr.mpr rfl
    subst he
    rw [h]
    simp only [htake]
  exact ⟨main, fun T hT => main (utf8 T) (utf8_lt T) hT⟩

/-- Scenario of the spec for C2: the store holds `SSOSyncV2GoogleCredentials`
in binary form, the base64 text of the JSON object with the one field `type`,
and `GoogleCredentials()` returns that JSON text. -/
theorem binary_roundtrip_witness :
    (storeSecrets String).svc.GetSecretValue (currentRequest "SSOSyncV2GoogleCredentials")
        scenarioStore
      = (Except.ok { SecretString := none,
                     SecretBinary := some (utf8 "eyJ0eXBlIjoic2VydmljZV9hY2NvdW50In0=") },
          scenarioStore) ∧
    elems (some (utf8 "eyJ0eXBlIjoic2VydmljZV9hY2NvdW50In0="))
      = base64.stdEncode (utf8 "\x7b\"type\":\"service_account\"\x7d") ∧
    (storeSecrets String).getSecret 64 "SSOSyncV2GoogleCredentials" scenarioStore
      = Except.ok ((utf8 "\x7b\"type\":\"service_account\"\x7d", none), scenarioStore) :=
  ⟨rfl, by decide,
    (binary_roundtrip 64 (storeSecrets String) "SSOSyncV2GoogleCredentials" scenarioStore
      scenarioStore _ rfl rfl).2 "\x7b\"type\":\"service_account\"\x7d" (by decide)⟩

/-- C3: when the store's `GetSecretValue` call fails with the error `e`,
`getSecret` returns the empty string together with that same error `e`, for
any platform word size, and so does each getter for its own identifier. -/
theorem store_error_propagated {σ ε : Type} (IntSize : Nat) (s : Secrets σ ε)
    (secretKey : String) (w w2 : σ) (e : GoError ε)
    (hcall : s.svc.GetSecretValue (currentRequest secretKey) w = (Except.error e, w2)) :
    s.getSecret IntSize secretKey w = Except.ok (([], some e), w2) ∧
    ∀ g : Getter, g.secretId = secretKey → g.call IntSize s w = Except.ok (([], some e), w2) := by
  refine ⟨getSecret_of_error IntSize s secretKey w w2 e hcall, ?_⟩
  intro g hg
  rw [getter_call_eq, hg]
  exact getSecret_of_error IntSize s secretKey w w2 e hcall

/-- Scenario of the spec for C3: the store has no secret named
`SSOSyncV2SCIMAccessToken`, and `SCIMAccessToken()` returns the store's error
with the empty string. -/
theorem store_error_propagated_witness :
    (storeSecrets String).svc.GetSecretValue (currentRequest "SSOSyncV2SCIMAccessToken")
        scenarioStore
      = (Except.error (GoError.other "ResourceNotFoundException"), scenarioStore) ∧
    ((storeSecrets String).getSecret 64 "SSOSyncV2SCIMAccessToken" scenarioStore
        = Except.ok (([], some (GoError.other "ResourceNotFoundException")), scenarioStore) ∧
      ∀ g : Getter, g.secretId = "SSOSyncV2SCIMAccessToken" →
        g.call 64 (storeSecrets String) scenarioStore
          = Except.ok (([], some (GoError.other "ResourceNotFoundException")), scenarioStore)) :=
  ⟨rfl, store_error_propagated 64 (storeSecrets String) "SSOSyncV2SCIMAccessToken" scenarioStore
    scenarioStore _ rfl⟩

set_option maxRecDepth 100000 in
theorem stdChar_ne_pad : ∀ v, v < 64 → base64.stdChar v ≠ 61 := by decide

/-- C4, the claim as stated fails: the payload `QR==` is not the standard
padded base64 encoding of any byte sequence (the encoding of the byte `A` is
`QQ==`), yet `getSecret` returns the string `A` with a nil error. -/
theorem noncanonical_payload_accepted :
    (∀ bs : List Nat, base64.stdEncode bs ≠ utf8 "QR==") ∧
    (storeSecrets String).getSecret 64 "SSOSyncV2GoogleCredentials"
        (constStore (Except.ok { SecretString := none, SecretBinary := some (utf8 "QR==") }))
      = Except.ok ((utf8 "A", none),
          constStore (Except.ok { SecretString := none, SecretBinary := some (utf8 "QR==") })) := by
  refine ⟨?_, rfl⟩
  intro bs h
  have hq : utf8 "QR==" = [81, 82, 61, 61] := by decide
  rw [hq] at h
  match bs, h with
  | [], h => simp [base64.stdEncode] at h
  | [x], h =>
    simp only [base64.stdEncode, List.cons.injEq, and_true] at h
    have h4 : x % 4 < 4 := Nat.mod_lt _ (by decide)
    have hc : ∀ v, v < 4 → base64.stdChar (v * 16) ≠ 82 := by decide
    exact hc _ h4 h.2
  | [x, y], h =>
    simp only [base64.stdEncode, List.cons.injEq, and_true] at h
    exact stdChar_ne_pad _ (by omega) h.2.2
  | x :: y :: z :: rest, h =>
    simp only [base64.stdEncode, List.cons.injEq] at h
    exact stdChar_ne_pad _ (by omega) h.2.2.2.1

/-- C4, amended: when the successful response has no plain-text form and its
binary payload, once its CR and LF bytes are removed, is not a sequence of
four-character groups of the standard alphabet whose last group may be `xx==`
or `xxx=`, `getSecret` returns a non-nil decode error and the empty string. -/
theorem malformed_payload_rejected {σ ε : Type} (IntSize : Nat) (s : Secrets σ ε)
    (secretKey : String) (w w2 : σ) (r : GetSecretValueOutput)
    (hcall : s.svc.GetSecretValue (currentRequest secretKey) w = (Except.ok r, w2))
    (hnil : r.SecretString = none)
    (hbad : base64.wellFormed (base64.stripNewlines (elems r.SecretBinary)) = false) :
    ∃ off, s.getSecret IntSize secretKey w
      = Except.ok (([], some (GoError.corruptInput off)), w2) := by
  obtain ⟨dst, n, err, -, hpost, h⟩ := getSecret_of_binary IntSize s secretKey w w2 r hcall hnil
  obtain ⟨-, -, -, herr⟩ := hpost
  cases err with
  | none =>
    have := (accept_iff_wellFormed _).mp (herr.mp rfl)
    rw [hbad] at this
    exact absurd this (by decide)
  | some off => exact ⟨off, h⟩

/-- A payload with its padding cut short, `QUI` for `QUI=`, is rejected. -/
theorem malformed_payload_rejected_witness :
    (storeSecrets String).svc.GetSecretValue (currentRequest "SSOSyncV2GoogleCredentials")
        (constStore (Except.ok { SecretString := none, SecretBinary := some (utf8 "QUI") }))
      = (Except.ok { SecretString := none, SecretBinary := some (utf8 "QUI") },
          constStore (Except.ok { SecretString := none, SecretBinary := some (utf8 "QUI") })) ∧
    base64.wellFormed (base64.stripNewlines (elems (some (utf8 "QUI")))) = false ∧
    ∃ off, (storeSecrets String).getSecret 64 "SSOSyncV2GoogleCredentials"
        (constStore (Except.ok { SecretString := none, SecretBinary := some (utf8 "QUI") }))
      = Except.ok (([], some (GoError.corruptInput off)),
          constStore (Except.ok { SecretString := none, SecretBinary := some (utf8 "QUI") })) :=
  ⟨rfl, by decide,
    malformed_payload_rejected 64 (storeSecrets String) "SSOSyncV2GoogleCredentials"
      (constStore (Except.ok { SecretString := none, SecretBinary := some (utf8 "QUI") }))
      _ _ rfl rfl (by decide)⟩

/-- C6: when both forms are present in a successful response, the plain-text
form `S` and any binary payload `B` (malformed base64 included), `getSecret`
returns `S` with a nil error, whatever `B` is. -/
theorem plaintext_takes_precedence {σ ε : Type} (IntSize : Nat) (s : Secrets σ ε)
    (secretKey : String) (w w2 : σ) (S : List Nat) (B : Option (List Nat))
    (hcall : s.svc.GetSecretValue (currentRequest secretKey) w
      = (Except.ok { SecretString := some S, SecretBinary := B }, w2)) :
    s.getSecret IntSize secretKey w = Except.ok ((S, none), w2) :=
  getSecret_of_plain IntSize s secretKey w w2 _ S hcall rfl

/-- A response with the plain text `admin@example.com` and the binary payload
`!!!`, which is not base64: the plain text is returned. -/
theorem plaintext_takes_precedence_witness :
    (storeSecrets String).svc.GetSecretValue (currentRequest "SSOSyncV2GoogleAdminEmail")
        (constStore (Except.ok { SecretString := some (utf8 "admin@example.com"),
                                 SecretBinary := some (utf8 "!!!") }))
      = (Except.ok { SecretString := some (utf8 "admin@example.com"),
                     SecretBinary := some (utf8 "!!!") },
          constStore (Except.ok { SecretString := some (utf8 "admin@example.com"),
                                  SecretBinary := some (utf8 "!!!") })) ∧
    (storeSecrets String).getSecret 64 "SSOSyncV2GoogleAdminEmail"
        (constStore (Except.ok { SecretString := some (utf8 "admin@example.com"),
                                 SecretBinary := some (utf8 "!!!") }))
      = Except.ok ((utf8 "admin@example.com", none),
          constStore (Except.ok { SecretString := some (utf8 "admin@example.com"),
                                  SecretBinary := some (utf8 "!!!") })) :=
  ⟨rfl, plaintext_takes_precedence 64 (storeSecrets String) "SSOSyncV2GoogleAdminEmail" _ _
    (utf8 "admin@example.com") (some (utf8 "!!!")) rfl⟩

/-- C10: when a successful response has neither form (`SecretString` nil and
`SecretBinary` nil or empty), `getSecret` returns the empty string with a nil
error, the same pair it returns for a secret whose plain-text value is the
empty string. -/
theorem absent_value_is_empty_string {σ ε : Type} (IntSize : Nat) (s : Secrets σ ε)
    (secretKey : String) (w w2 : σ) (r : GetSecretValueOutput)
    (hcall : s.svc.GetSecretValue (currentRequest secretKey) w = (Except.ok r, w2))
    (hnil : r.SecretString = none)
    (hbin : r.SecretBinary = none ∨ r.SecretBinary = some []) :
    s.getSecret IntSize secretKey w = Except.ok (([], none), w2) ∧
    ∀ (s2 : Secrets σ ε) (w0 : σ) (B : Option (List Nat)),
      s2.svc.GetSecretValue (currentRequest secretKey) w0
        = (Except.ok { SecretString := some [], SecretBinary := B }, w2) →
      s2.getSecret IntSize secretKey w0 = s.getSecret IntSize secretKey w := by
  have hmain : s.getSecret IntSize secretKey w = Except.ok (([], none), w2) := by
    have he : elems r.SecretBinary = [] := by
      rcases hbin with h | h <;> rw [h] <;> rfl
    have hb := getSecret_of_binary IntSize s secretKey w w2 r hcall hnil
    obtain ⟨dst, n, err, -, hpost, h⟩ := hb
    obtain ⟨-, -, htake, herr⟩ := hpost
    rw [he, decodeStripped_nil] at htake herr
    have hen : err = none := herr.mpr rfl
    subst hen
    rw [h]
    simp only [htake]
  refine ⟨hmain, ?_⟩
  intro s2 w0 B h2
  rw [hmain]
  exact getSecret_of_plain IntSize s2 secretKey w0 w2 _ [] h2 rfl

/-- A response with no value at all: the identity-store getter returns the
empty string and no error. -/
theorem absent_value_is_empty_string_witness :
    (storeSecrets String).svc.GetSecretValue (currentRequest "SSOSyncV2IdentityStoreID")
        (constStore (Except.ok { SecretString := none, SecretBinary := none }))
      = (Except.ok { SecretString := none, SecretBinary := none },
          constStore (Except.ok { SecretString := none, SecretBinary := none })) ∧
    ((none : Option (List Nat)) = none ∨ (none : Option (List Nat)) = some []) ∧
    (storeSecrets String).getSecret 64 "SSOSyncV2IdentityStoreID"
        (constStore (Except.ok { SecretString := none, SecretBinary := none }))
      = Except.ok (([], none),
          constStore (Except.ok { SecretString := none, SecretBinary := none })) :=
  ⟨rfl, Or.inl rfl,
    (absent_value_is_empty_string 64 (storeSecrets String) "SSOSyncV2IdentityStoreID"
      (constStore (Except.ok { SecretString := none, SecretBinary := none }))
      _ _ rfl rfl (Or.inl rfl)).1⟩

theorem getSecret_issues_one {σ ε : Type} (IntSize : Nat) (secretKey : String)
    (c : SecretsManager σ ε) (w : σ) (log : List GetSecretValueInput) :
    ∃ res, (NewSecrets (recording c)).getSecret IntSize secretKey (w, log)
      = Except.ok (res,
          ((c.GetSecretValue
              { SecretId := some secretKey, VersionId := none,
                VersionStage := some "AWSCURRENT" } w).2,
           log ++ [{ SecretId := some secretKey, VersionId := none,
                     VersionStage := some "AWSCURRENT" }])) :=
  getSecret_total IntSize (NewSecrets (recording c)) secretKey (w, log)

/-- C5: each of the six getters returns the pair `getSecret` returns for its
fixed identifier and issues exactly one `GetSecretValue` request per call,
whose `SecretId` is that identifier and whose `VersionStage` is `AWSCURRENT`. -/
theorem getters_issue_one_request (IntSize : Nat) :
    IssuesOneRequest (fun _ _ s w => s.GoogleAdminEmail IntSize w) IntSize
      "SSOSyncV2GoogleAdminEmail" ∧
    IssuesOneRequest (fun _ _ s w => s.SCIMAccessToken IntSize w) IntSize
      "SSOSyncV2SCIMAccessToken" ∧
    IssuesOneRequest (fun _ _ s w => s.SCIMEndpointUrl IntSize w) IntSize
      "SSOSyncV2SCIMEndpointUrl" ∧
    IssuesOneRequest (fun _ _ s w => s.GoogleCredentials IntSize w) IntSize
      "SSOSyncV2GoogleCredentials" ∧
    IssuesOneRequest (fun _ _ s w => s.Region IntSize w) IntSize "SSOSyncV2Region" ∧
    IssuesOneRequest (fun _ _ s w => s.IdentityStoreID IntSize w) IntSize
      "SSOSyncV2IdentityStoreID" := by
  refine ⟨?_, ?_, ?_, ?_, ?_, ?_⟩ <;> intro σ ε c w log <;>
    exact ⟨rfl, getSecret_issues_one IntSize _ c w log⟩

theorem secretId_injective : ∀ g g2 : Getter, g.secretId = g2.secretId → g = g2 := by
  intro g g2
  cases g <;> cases g2 <;> first | (intro _; rfl) | (intro h; exact absurd h (by decide))

theorem getSecret_congr {σ ε : Type} (IntSize : Nat) (s s2 : Secrets σ ε) (secretKey : String)
    (w w2 : σ)
    (h : (s.svc.GetSecretValue (currentRequest secretKey) w).1
      = (s2.svc.GetSecretValue (currentRequest secretKey) w2).1)
    (res : List Nat × Option (GoError ε))
    (hres : s.getSecret IntSize secretKey w
      = Except.ok (res, (s.svc.GetSecretValue (currentRequest secretKey) w).2)) :
    s2.getSecret IntSize secretKey w2
      = Except.ok (res, (s2.svc.GetSecretValue (currentRequest secretKey) w2).2) := by
  cases hc : s.svc.GetSecretValue (currentRequest secretKey) w with
  | mk out v =>
    cases hc2 : s2.svc.GetSecretValue (currentRequest secretKey) w2 with
    | mk out2 v2 =>
      rw [hc, hc2] at h
      simp only at h
      subst h
      rw [hc] at hres
      simp only at hres ⊢
      cases out with
      | error e =>
        rw [getSecret_of_error IntSize s secretKey w v e hc] at hres
        rw [getSecret_of_error IntSize s2 secretKey w2 v2 e hc2]
        simp only [Except.ok.injEq, Prod.mk.injEq, and_true] at hres
        rw [hres]
      | ok r =>
        cases hS : r.SecretString with
        | some S =>
          rw [getSecret_of_plain IntSize s secretKey w v r S hc hS] at hres
          rw [getSecret_of_plain IntSize s2 secretKey w2 v2 r S hc2 hS]
          simp only [Except.ok.injEq, Prod.mk.injEq, and_true] at hres
          rw [hres]
        | none =>
          obtain ⟨dst, n, err, hd, -, h1⟩ := getSecret_of_binary IntSize s secretKey w v r hc hS
          obtain ⟨dst2, n2, err2, hd2, -, h2⟩ :=
            getSecret_of_binary IntSize s2 secretKey w2 v2 r hc2 hS
          rw [hd] at hd2
          simp only [Except.ok.injEq, Prod.mk.injEq] at hd2
          obtain ⟨rfl, rfl, rfl⟩ := hd2
          rw [h1] at hres
          rw [h2]
          simp only [Except.ok.injEq, Prod.mk.injEq, and_true] at hres
          rw [hres]

/-- C7: with the store a function from requests to a response or an error, a
getter with identifier `X` returns the same pair in two stores that agree on
the request for `X` at `AWSCURRENT`; it leaves the store as it is, so a second
call returns what the first returned; and changing what the store answers for
the identifier of another getter does not change its result. -/
theorem getter_reads_only_its_secret {ε : Type} (g : Getter) (IntSize : Nat)
    (st1 st2 : Store ε)
    (hagree : st1 (currentRequest g.secretId) = st2 (currentRequest g.secretId)) :
    ∃ res,
      g.call IntSize (storeSecrets ε) st1 = Except.ok (res, st1) ∧
      g.call IntSize (storeSecrets ε) st2 = Except.ok (res, st2) ∧
      (g.call IntSize (storeSecrets ε) st1 >>= fun p => g.call IntSize (storeSecrets ε) p.2)
        = Except.ok (res, st1) ∧
      ∀ (g2 : Getter) (out : Except (GoError ε) GetSecretValueOutput), g2 ≠ g →
        g.call IntSize (storeSecrets ε) (Function.update st1 (currentRequest g2.secretId) out)
          = Except.ok (res, Function.update st1 (currentRequest g2.secretId) out) := by
  obtain ⟨res, hres⟩ := getSecret_total IntSize (storeSecrets ε) g.secretId st1
  have h1 : g.call IntSize (storeSecrets ε) st1 = Except.ok (res, st1) := by
    rw [getter_call_eq]; exact hres
  refine ⟨res, h1, ?_, ?_, ?_⟩
  · rw [getter_call_eq]
    exact getSecret_congr IntSize (storeSecrets ε) (storeSecrets ε) g.secretId st1 st2 hagree
      res hres
  · rw [h1]
    exact h1
  · intro g2 out hne
    rw [getter_call_eq]
    refine getSecret_congr IntSize (storeSecrets ε) (storeSecrets ε) g.secretId st1 _ ?_ res hres
    have hreq : currentRequest g.secretId ≠ currentRequest g2.secretId := by
      intro h
      simp only [currentRequest, GetSecretValueInput.mk.injEq, Option.some.injEq, and_true,
        true_and] at h
      exact hne (secretId_injective g g2 h).symm
    show st1 (currentRequest g.secretId)
      = Function.update st1 (currentRequest g2.secretId) out (currentRequest g.secretId)
    rw [Function.update_noteq hreq]

/-- Two stores that differ in the access token only: the getter of the
credentials returns the same pair in both. -/
theorem getter_reads_only_its_secret_witness :
    scenarioStore (currentRequest Getter.GoogleCredentials.secretId)
      = Function.update scenarioStore (currentRequest "SSOSyncV2SCIMAccessToken")
          (Except.ok { SecretString := some (utf8 "t0k3n"), SecretBinary := none })
          (currentRequest Getter.GoogleCredentials.secretId) ∧
    ∃ res,
      Getter.GoogleCredentials.call 64 (storeSecrets String) scenarioStore
        = Except.ok (res, scenarioStore) ∧
      Getter.GoogleCredentials.call 64 (storeSecrets String)
          (Function.update scenarioStore (currentRequest "SSOSyncV2SCIMAccessToken")
            (Except.ok { SecretString := some (utf8 "t0k3n"), SecretBinary := none }))
        = Except.ok (res,
            Function.update scenarioStore (currentRequest "SSOSyncV2SCIMAccessToken")
              (Except.ok { SecretString := some (utf8 "t0k3n"), SecretBinary := none })) ∧
      (Getter.GoogleCredentials.call 64 (storeSecrets String) scenarioStore >>=
          fun p => Getter.GoogleCredentials.call 64 (storeSecrets String) p.2)
        = Except.ok (res, scenarioStore) ∧
      ∀ (g2 : Getter) (out : Except (GoError String) GetSecretValueOutput),
        g2 ≠ Getter.GoogleCredentials →
        Getter.GoogleCredentials.call 64 (storeSecrets String)
            (Function.update scenarioStore (currentRequest g2.secretId) out)
          = Except.ok (res, Function.update scenarioStore (currentRequest g2.secretId) out) :=
  ⟨rfl, getter_reads_only_its_secret Getter.GoogleCredentials 64 scenarioStore
    (Function.update scenarioStore (currentRequest "SSOSyncV2SCIMAccessToken")
      (Except.ok { SecretString := some (utf8 "t0k3n"), SecretBinary := none })) rfl⟩

/-- C8: for every outcome of the store, `getSecret` returns; its error is
non-nil exactly when the store request failed or the plain-text form is absent
and decoding the binary payload failed; with a non-nil error the string is
empty; with a nil error the string is the plain-text value or the whole of the
decoded binary payload. -/
theorem all_or_nothing {σ ε : Type} (IntSize : Nat) (s : Secrets σ ε) (secretKey : String)
    (w : σ) :
    ∃ str err,
      s.getSecret IntSize secretKey w
        = Except.ok ((str, err), (s.svc.GetSecretValue (currentRequest secretKey) w).2) ∧
      (err ≠ none ↔
        ((∃ e, (s.svc.GetSecretValue (currentRequest secretKey) w).1 = Except.error e) ∨
         (∃ r, (s.svc.GetSecretValue (currentRequest secretKey) w).1 = Except.ok r ∧
            r.SecretString = none ∧ DecodeFails IntSize (elems r.SecretBinary)))) ∧
      (err ≠ none → str = []) ∧
      (err = none →
        ∃ r, (s.svc.GetSecretValue (currentRequest secretKey) w).1 = Except.ok r ∧
          (r.SecretString = some str ∨
           (r.SecretString = none ∧
            base64.decodeStripped (base64.stripNewlines (elems r.SecretBinary)) = (str, true) ∧
            ∃ dst n, base64.Decode base64.StdEncoding IntSize
                (make (base64.DecodedLen base64.StdEncoding (elems r.SecretBinary).length))
                (elems r.SecretBinary) = Except.ok (dst, n, none) ∧ str = dst.take n))) := by
  cases hcall : s.svc.GetSecretValue (currentRequest secretKey) w with
  | mk out w2 =>
    cases out with
    | error e =>
      refine ⟨[], some e, getSecret_of_error IntSize s secretKey w w2 e hcall, ?_, ?_, ?_⟩
      · simp
      · intro _; rfl
      · intro h; simp at h
    | ok r =>
      cases hS : r.SecretString with
      | some S =>
        refine ⟨S, none, getSecret_of_plain IntSize s secretKey w w2 r S hcall hS, ?_, ?_, ?_⟩
        · simp [hS]
        · intro h; simp at h
        · intro _
          exact ⟨r, rfl, Or.inl hS⟩
      | none =>
        obtain ⟨dst, n, err, hd, hpost, h⟩ :=
          getSecret_of_binary IntSize s secretKey w w2 r hcall hS
        obtain ⟨-, -, htake, herr⟩ := hpost
        cases err with
        | none =>
          refine ⟨dst.take n, none, h, ?_, ?_, ?_⟩
          · simp only [ne_eq, not_true_eq_false, reduceCtorEq, exists_false, false_or,
              false_iff, not_exists, not_and]
            intro r2 hr2 _ hfail
            simp only [Except.ok.injEq] at hr2
            subst hr2
            obtain ⟨d2, n2, off, hf⟩ := hfail
            rw [hd] at hf
            simp at hf
          · intro h0; simp at h0
          · intro _
            refine ⟨r, rfl, Or.inr ⟨hS, ?_, dst, n, hd, rfl⟩⟩
            rw [htake]
            have := herr.mp rfl
            rw [← this]
        | some off =>
          refine ⟨[], some (GoError.corruptInput off), h, ?_, ?_, ?_⟩
          · simp only [ne_eq, reduceCtorEq, not_false_eq_true, exists_false, false_or, true_iff]
            exact ⟨r, rfl, hS, dst, n, off, hd⟩
          · intro _; rfl
          · intro h0; simp at h0

/-- C9: for every binary payload `B`, `Decode` into a buffer of
`DecodedLen(len(B))` bytes returns without a panic, the number `l` it reports
is at most `DecodedLen(len(B))`, the slice `[:l]` of the buffer is in range,
and `getSecret` returns for every accessor, identifier and state. -/
theorem decoded_length_in_range (IntSize : Nat) (B : List Nat) :
    (∃ dst l err,
      base64.Decode base64.StdEncoding IntSize
          (make (base64.DecodedLen base64.StdEncoding B.length)) B = Except.ok (dst, l, err) ∧
      dst.length = base64.DecodedLen base64.StdEncoding B.length ∧
      l ≤ base64.DecodedLen base64.StdEncoding B.length ∧
      slice dst 0 l = Except.ok (dst.take l)) ∧
    ∀ (σ ε : Type) (s : Secrets σ ε) (secretKey : String) (w : σ),
      ∃ res w2, s.getSecret IntSize secretKey w = Except.ok (res, w2) := by
  constructor
  · obtain ⟨dst, l, err, hd, hlen, hl, -, -⟩ := Decode_spec IntSize B
    exact ⟨dst, l, err, hd, hlen, by omega, slice_upto dst l hl⟩
  · intro σ ε s secretKey w
    obtain ⟨res, h⟩ := getSecret_total IntSize s secretKey w
    exact ⟨res, _, h⟩

end SSOSync
